import Mathlib

/-!
# go-utils, package `log`: model and verified properties

Of package `log` the repository sources at hand hold only the test file
`log/log_test.go`; the implementation file is absent. The definitions of this
part are therefore written from the specification of the package, with the names,
constants and expected outputs that the test file shows. Go library functions the
package calls (formatted printing, timestamp rendering) are parameters.

The asynchronous pipeline is modelled as a state machine: caller-side calls
append to a queue, a worker step takes the oldest queued message, writes its line
and starts the matching handles, and a handle step completes one started handle
invocation. A schedule is any list of such steps.

The pipeline comes in two layers. `Logger.process`, `Logger.work` and `Logger.Wait`
describe the worker in the case where no rotation is due and every write succeeds;
the level filter and the handle fan-out are stated on them. `Engine` adds the state
of the sink: at each write attempt the environment decides the time and whether the
rotation and the write succeed, a rotation that is due replaces the active sink
before the write, and a failed write is recorded. The lemmas `Engine.process_in_place`,
`Engine.run_plain` and `Engine.drain_in_place` show that the first layer is the
second one restricted to that case. `Wait()` blocks; on the engine it is the
condition `Engine.WaitReturns` on which it returns, together with the proof that
the worker and the handles reach it.
-/

namespace log

/-! ## Level -/

/-- Modelled from the spec: the severity enumeration of the absent `log.go`,
ordered DEBUG < INFO < NOTICE < WARN < ERROR. -/
inductive Level where
  | DEBUG
  | INFO
  | NOTICE
  | WARN
  | ERROR
deriving DecidableEq, Repr

/-- Modelled from the spec: position of a level in the total order of the absent
enumeration. -/
def Level.rank : Level → Nat
  | .DEBUG => 0
  | .INFO => 1
  | .NOTICE => 2
  | .WARN => 3
  | .ERROR => 4

instance : LE Level := ⟨fun a b => a.rank ≤ b.rank⟩

instance : LT Level := ⟨fun a b => a.rank < b.rank⟩

instance (a b : Level) : Decidable (a ≤ b) := inferInstanceAs (Decidable (a.rank ≤ b.rank))

instance (a b : Level) : Decidable (a < b) := inferInstanceAs (Decidable (a.rank < b.rank))

/-- Modelled from the spec: the fixed vocabulary of level names of the absent
`log.go` (the name printed for `{level}`, as the expected outputs of
`ExampleNew_another` show). -/
def Level2String : Level → String
  | .DEBUG => "DEBUG"
  | .INFO => "INFO"
  | .NOTICE => "NOTICE"
  | .WARN => "WARN"
  | .ERROR => "ERROR"

/-- Every level, in ascending order. -/
def levels : List Level := [.DEBUG, .INFO, .NOTICE, .WARN, .ERROR]

/-- Upper-casing of a text, letter by letter (basic latin letters). -/
def upper (s : String) : List Char := s.data.map Char.toUpper

/-- Modelled from the spec: `String2Level` of the absent `log.go`, the
case-insensitive parse of a level name: the text is upper-cased and looked up in
the fixed vocabulary; `none` is "not found". -/
def String2Level (s : String) : Option Level :=
  levels.find? (fun l => (Level2String l).data == upper s)

/-- Two texts are equal when letter case is ignored: same length, and at each
position the same character once both are lower-cased. -/
def eqIgnoreCase (a b : String) : Prop :=
  List.Forall₂ (fun x y => x.toLower = y.toLower) a.data b.data

/-! ## Data model -/

/-- Modelled from the spec: the `Message` record of the absent `log.go`
(`Time`, `Msg`, `Level`, as used in `log_test.go`); the timestamp is a number. -/
structure Message where
  Time : Nat
  Msg : String
  Level : Level
deriving DecidableEq, Repr

/-- Modelled from the spec: layout families (`LY_*` constants of the tests). -/
inductive Layout where
  | LY_DEFAULT
  | LY_LEVEL
  | LY_TIME
  | LY_MSGONLY
deriving DecidableEq, Repr

/-- Modelled from the spec: timestamp renderings (`TF_*` constants of the tests). -/
inductive TimeFormat where
  | TF_DEFAULT
  | TF_LONG
  | TF_TIMELONG
deriving DecidableEq, Repr

/-- Modelled from the spec: rotation granularities none, hourly, daily of the
absent `log.go`. `R_NONE` is also the value of an unset field. -/
inductive Rotate where
  | R_NONE
  | R_HOURLY
  | R_DAILY
deriving DecidableEq, Repr

/-- Modelled from the spec: values of the `RotatePattern` field of the absent
`log.go`: unset (`RP_NONE`), the constant `RP_DEFAULT` of the tests, or any
other value. -/
inductive RotatePattern where
  | RP_NONE
  | RP_DEFAULT
  | other (p : String)
deriving DecidableEq, Repr

/-- Modelled from the spec: the `Config` record of the absent `log.go`. `Layout`,
`LayoutStyle`, `Level` and `TimeFormat` are the values in force (after defaults
for unset fields, which the spec does not list); `LayoutStyle` is the literal
template. -/
structure Config where
  Layout : Layout
  LayoutStyle : String
  Level : Level
  TimeFormat : TimeFormat
  Utc : Bool
  Rotate : Rotate
  RotatePattern : RotatePattern
deriving DecidableEq, Repr

/-- Modelled from the spec: the `Handle` pair of the absent `log.go`. The callback
`Func` is represented by an identifier; its invocations are recorded in the
logger state. -/
structure Handle where
  Func : Nat
  Level : Level
deriving DecidableEq, Repr

/-- Modelled from the spec: the byte destination given to `New`: one of the two
standard streams of the process, or a file. -/
inductive Sink where
  | stdout
  | stderr
  | file (name : String)
deriving DecidableEq, Repr

/-- An argument of an emission call: its default rendering and whether its
dynamic type is a string. -/
structure Arg where
  isString : Bool
  text : String
deriving DecidableEq, Repr

/-- The Go library functions the package relies on, taken as given:
formatted printing and the rendering of a timestamp under a time format and the
`Utc` flag. -/
structure Lib where
  Sprintf : String → List Arg → String
  timeText : TimeFormat → Bool → Nat → String

/-- A queued message together with the convention it is formatted with
(`raw` for the bytes given to `Write`). -/
structure Entry where
  msg : Message
  raw : Bool
deriving DecidableEq, Repr

/-- Modelled from the spec: the state of a `Logger` of the absent `log.go`: the
validated configuration, the registered handles, the sink and the bytes written
to it so far, the queue (oldest first), the handle invocations started and not yet
completed, and the completed ones. -/
structure Logger where
  config : Config
  handles : List Handle
  out : Sink
  written : String
  queue : List Entry
  pending : List (Handle × Message)
  invoked : List (Handle × Message)

/-! ## Construction -/

/-- The state of a logger that has just been built: nothing written, nothing
queued, no handle invocation started. -/
def Logger.fresh (config : Config) (handles : List Handle) (w : Sink) : Logger :=
  { config := config, handles := handles, out := w, written := "", queue := [],
    pending := [], invoked := [] }

/-- Modelled from the spec: `New` of the absent `log.go`, with the validation
order of the spec and the error texts that `TestLoggerStdout2` and
`TestLoggerStdout3` expect. `patterns` is the table giving the rotate patterns
valid for each granularity. -/
def New (patterns : Rotate → List RotatePattern) (w : Sink) (config : Config)
    (handles : List Handle) : Except String Logger :=
  if config.Rotate ≠ .R_NONE ∧ (w = .stdout ∨ w = .stderr) then
    .error "Stdout or stderr could not be rotated."
  else if config.RotatePattern ∉ patterns config.Rotate then
    .error "Rotate pattern does not match rotate value."
  else
    .ok (Logger.fresh config handles w)

/-! ## Formatting -/

/-- Modelled from the spec: textual substitution of the placeholders `{level}`,
`{msg}` and `{time}` in a template, in one pass from left to right; every other
character is copied. -/
def substitute (time level msg : List Char) : List Char → List Char
  | '{' :: 'l' :: 'e' :: 'v' :: 'e' :: 'l' :: '}' :: rest =>
    level ++ substitute time level msg rest
  | '{' :: 'm' :: 's' :: 'g' :: '}' :: rest => msg ++ substitute time level msg rest
  | '{' :: 't' :: 'i' :: 'm' :: 'e' :: '}' :: rest => time ++ substitute time level msg rest
  | c :: rest => c :: substitute time level msg rest
  | [] => []

/-- The three placeholders of a template. -/
def placeholders : List String := ["{level}", "{msg}", "{time}"]

/-- Modelled from the spec: the rendering of a message under a template: the
placeholders stand for the rendered timestamp, the level name and the message
text. -/
def format (lib : Lib) (config : Config) (template : String) (m : Message) : String :=
  String.mk (substitute (lib.timeText config.TimeFormat config.Utc m.Time).data
    (Level2String m.Level).data m.Msg.data template.data)

/-- Modelled from the spec: `msg2bytes` of the absent `log.go`: the line written
for a message under a template, ended by a line break. -/
def msg2bytes (lib : Lib) (config : Config) (template : String) (m : Message) : String :=
  format lib config template m ++ "\n"

/-- Modelled from the spec: the line the worker of the absent `log.go` writes for
a queue entry: the configured template, or the message-only template for raw
bytes. -/
def Entry.line (lib : Lib) (config : Config) (e : Entry) : String :=
  msg2bytes lib config (if e.raw then "{msg}" else config.LayoutStyle) e.msg

/-- Concatenation of a list of texts, in order. -/
def concat : List String → String
  | [] => ""
  | s :: rest => s ++ concat rest

/-! ## Message text -/

/-- Modelled from the spec: renderings of the arguments after the first for the
absent `log.go`, each preceded by a space when neither it nor the argument before
it is a string. -/
def sprintFrom (prevString : Bool) : List Arg → String
  | [] => ""
  | a :: rest =>
    (if !a.isString && !prevString then " " else "") ++ a.text ++ sprintFrom a.isString rest

/-- Modelled from the spec: the text of a message built from an argument list
without format string (concatenated renderings, space-joined between operands
of which neither is a string). -/
def Sprint : List Arg → String
  | [] => ""
  | a :: rest => a.text ++ sprintFrom a.isString rest

/-! ## Emission -/

/-- Modelled from the spec: the common path of the per-level methods of the
absent `log.go`: build the message, drop it when its level is below the
configured minimum, enqueue it otherwise. -/
def Logger.emit (l : Logger) (now : Nat) (level : Level) (text : String) : Logger :=
  if level < l.config.Level then l
  else { l with queue := l.queue ++
    [{ msg := { Time := now, Msg := text, Level := level }, raw := false }] }

/-- Modelled from the spec: `Print(level, args...)`. -/
def Logger.Print (l : Logger) (now : Nat) (level : Level) (args : List Arg) : Logger :=
  l.emit now level (Sprint args)

/-- Modelled from the spec: `Printf(level, format, args...)`. -/
def Logger.Printf (lib : Lib) (l : Logger) (now : Nat) (level : Level) (format : String)
    (args : List Arg) : Logger :=
  l.emit now level (lib.Sprintf format args)

/-- Modelled from the spec: `Debug(args...)`. -/
def Logger.Debug (l : Logger) (now : Nat) (args : List Arg) : Logger :=
  l.Print now .DEBUG args

/-- Modelled from the spec: `Info(args...)`. -/
def Logger.Info (l : Logger) (now : Nat) (args : List Arg) : Logger :=
  l.Print now .INFO args

/-- Modelled from the spec: `Notice(args...)`. -/
def Logger.Notice (l : Logger) (now : Nat) (args : List Arg) : Logger :=
  l.Print now .NOTICE args

/-- Modelled from the spec: `Warn(args...)`. -/
def Logger.Warn (l : Logger) (now : Nat) (args : List Arg) : Logger :=
  l.Print now .WARN args

/-- Modelled from the spec: `Error(args...)`. -/
def Logger.Error (l : Logger) (now : Nat) (args : List Arg) : Logger :=
  l.Print now .ERROR args

/-- Modelled from the spec: `Debugf(format, args...)`. -/
def Logger.Debugf (lib : Lib) (l : Logger) (now : Nat) (format : String)
    (args : List Arg) : Logger :=
  l.Printf lib now .DEBUG format args

/-- Modelled from the spec: `Infof(format, args...)`. -/
def Logger.Infof (lib : Lib) (l : Logger) (now : Nat) (format : String)
    (args : List Arg) : Logger :=
  l.Printf lib now .INFO format args

/-- Modelled from the spec: `Noticef(format, args...)`. -/
def Logger.Noticef (lib : Lib) (l : Logger) (now : Nat) (format : String)
    (args : List Arg) : Logger :=
  l.Printf lib now .NOTICE format args

/-- Modelled from the spec: `Warnf(format, args...)`. -/
def Logger.Warnf (lib : Lib) (l : Logger) (now : Nat) (format : String)
    (args : List Arg) : Logger :=
  l.Printf lib now .WARN format args

/-- Modelled from the spec: `Errorf(format, args...)`. -/
def Logger.Errorf (lib : Lib) (l : Logger) (now : Nat) (format : String)
    (args : List Arg) : Logger :=
  l.Printf lib now .ERROR format args

/-- Modelled from the spec: `Write(bytes) -> (n, err)` of the absent `log.go`: no
level filter, the message is always enqueued under the raw convention; the result
is the new state, the count of bytes taken and the error. The error is none: in the
error taxonomy of the spec a configuration error is raised only at construction, a
failure of the sink is not propagated back to the call that enqueued the message,
which has already returned, and a filtered drop is not an error, so that no class
of error is left for an emission call to return (the tests discard the result). The
spec does not say which level the message of a raw write carries: it is the
argument `lv`. -/
def Logger.Write (l : Logger) (now : Nat) (lv : Level) (b : String) :
    Logger × Nat × Option String :=
  ({ l with queue := l.queue ++ [{ msg := { Time := now, Msg := b, Level := lv }, raw := true }] },
    b.utf8ByteSize, none)

/-- A call of the emission surface. -/
inductive Call where
  | Debug (args : List Arg)
  | Info (args : List Arg)
  | Notice (args : List Arg)
  | Warn (args : List Arg)
  | Error (args : List Arg)
  | Debugf (format : String) (args : List Arg)
  | Infof (format : String) (args : List Arg)
  | Noticef (format : String) (args : List Arg)
  | Warnf (format : String) (args : List Arg)
  | Errorf (format : String) (args : List Arg)
  | Print (level : Level) (args : List Arg)
  | Printf (level : Level) (format : String) (args : List Arg)
  | Write (lv : Level) (b : String)

/-- The state after a call of the emission surface at time `now`. -/
def Logger.call (lib : Lib) (l : Logger) (now : Nat) : Call → Logger
  | .Debug args => l.Debug now args
  | .Info args => l.Info now args
  | .Notice args => l.Notice now args
  | .Warn args => l.Warn now args
  | .Error args => l.Error now args
  | .Debugf format args => l.Debugf lib now format args
  | .Infof format args => l.Infof lib now format args
  | .Noticef format args => l.Noticef lib now format args
  | .Warnf format args => l.Warnf lib now format args
  | .Errorf format args => l.Errorf lib now format args
  | .Print level args => l.Print now level args
  | .Printf level format args => l.Printf lib now level format args
  | .Write lv b => (l.Write now lv b).1

/-- Whether the call is one of the per-level methods, `Print` or `Printf`
(every call but `Write`). -/
def Call.leveled : Call → Bool
  | .Write _ _ => false
  | _ => true

/-- The level of the message a call builds. -/
def Call.level : Call → Level
  | .Debug _ => .DEBUG
  | .Info _ => .INFO
  | .Notice _ => .NOTICE
  | .Warn _ => .WARN
  | .Error _ => .ERROR
  | .Debugf _ _ => .DEBUG
  | .Infof _ _ => .INFO
  | .Noticef _ _ => .NOTICE
  | .Warnf _ _ => .WARN
  | .Errorf _ _ => .ERROR
  | .Print level _ => level
  | .Printf level _ _ => level
  | .Write lv _ => lv

/-- The text of the message a call builds. -/
def Call.text (lib : Lib) : Call → String
  | .Debug args => Sprint args
  | .Info args => Sprint args
  | .Notice args => Sprint args
  | .Warn args => Sprint args
  | .Error args => Sprint args
  | .Debugf format args => lib.Sprintf format args
  | .Infof format args => lib.Sprintf format args
  | .Noticef format args => lib.Sprintf format args
  | .Warnf format args => lib.Sprintf format args
  | .Errorf format args => lib.Sprintf format args
  | .Print _ args => Sprint args
  | .Printf _ format args => lib.Sprintf format args
  | .Write _ b => b

/-- The queue entry that a call made at time `now` stands for. -/
def Call.entry (lib : Lib) (now : Nat) (c : Call) : Entry :=
  { msg := { Time := now, Msg := c.text lib, Level := c.level }, raw := !c.leveled }

/-- Whether a logger of minimum level `M` accepts a call: a raw write always, a
leveled call when its level is at least `M`. -/
def Call.accepted (M : Level) (c : Call) : Bool :=
  !c.leveled || decide (M ≤ c.level)

/-! ## Worker, handles, drain -/

/-- Modelled from the spec: the handle fan-out of the absent `log.go`: the
invocations a processed entry gives rise to, one for each registered handle whose
threshold is at most the level of the message. -/
def offers (handles : List Handle) (e : Entry) : List (Handle × Message) :=
  (handles.filter (fun h => decide (h.Level ≤ e.msg.Level))).map (fun h => (h, e.msg))

/-- Modelled from the spec: processing of one message by the worker of the
absent `log.go` when no rotation is due and the write succeeds: its line is
appended to the sink and the invocations of the matching handles are started, each
on its own path. The general case, with the rotation check and a write that may
fail, is `Engine.process`. -/
def Logger.process (lib : Lib) (l : Logger) (e : Entry) : Logger :=
  { l with written := l.written ++ e.line lib l.config,
           pending := l.pending ++ offers l.handles e }

/-- Modelled from the spec: one step of the background worker of the absent
`log.go`, when no rotation is due and the write succeeds: the oldest queued
message, if any, is processed. -/
def Logger.work (lib : Lib) (l : Logger) : Logger :=
  match l.queue with
  | [] => l
  | e :: rest => Logger.process lib { l with queue := rest } e

/-- Modelled from the spec: one step of a handle of the absent `log.go`, each
running on its own path: the started invocation at position `i`, if any,
completes. -/
def Logger.finish (l : Logger) (i : Nat) : Logger :=
  match l.pending[i]? with
  | none => l
  | some p => { l with pending := l.pending.eraseIdx i, invoked := l.invoked ++ [p] }

/-- Modelled from the spec: the state in which `Wait()` of the absent `log.go`,
the blocking drain, returns when no rotation is due and every write succeeds: every
queued message has been processed in queue order and every started handle
invocation has completed. It is the state the worker and the handles reach by
their own steps (`Logger.Wait_eq_run`); the drain with rotation and failing writes
is `Engine.WaitReturns`. -/
def Logger.Wait (lib : Lib) (l : Logger) : Logger :=
  let d := l.queue.foldl (Logger.process lib) { l with queue := [] }
  { d with pending := [], invoked := d.invoked ++ d.pending }

/-- A step of a schedule: a call by the caller at a time, a worker step, or the
completion of a started handle invocation. -/
inductive Action where
  | call (now : Nat) (c : Call)
  | work
  | finish (i : Nat)

/-- The state after one step of a schedule. -/
def Logger.step (lib : Lib) (l : Logger) : Action → Logger
  | .call now c => l.call lib now c
  | .work => l.work lib
  | .finish i => l.finish i

/-- The state after a schedule. -/
def Logger.run (lib : Lib) (l : Logger) (as : List Action) : Logger :=
  as.foldl (Logger.step lib) l

/-- The entries that the calls of a schedule enqueue on a logger of minimum level
`M`, in call order. -/
def enqueued (lib : Lib) (M : Level) : List Action → List Entry
  | [] => []
  | .call now c :: rest =>
    if c.accepted M then c.entry lib now :: enqueued lib M rest else enqueued lib M rest
  | _ :: rest => enqueued lib M rest

/-- Everything written or still to be written: the bytes in the sink followed by
the lines of the queued entries, oldest first. -/
def Logger.lines (lib : Lib) (l : Logger) : String :=
  l.written ++ concat (l.queue.map (Entry.line lib l.config))

/-- Every handle invocation completed, started, or due to a queued entry. -/
def Logger.records (l : Logger) : List (Handle × Message) :=
  l.invoked ++ (l.pending ++ l.queue.flatMap (offers l.handles))

/-! ## The sink: rotation and write failure -/

/-- The calendar functions the rotation relies on, taken as given: the period (the
hour, the day) a time falls in under a granularity and the `Utc` flag, and the sink
that stands for a sink at a time under a rotate pattern. -/
structure Calendar where
  period : Rotate → Bool → Nat → Nat
  sinkName : Sink → RotatePattern → Nat → Sink

/-- What the environment decides at one write attempt of the worker: the time on
the worker's clock, whether the rotation, if one is due, succeeds, and whether the
write of the bytes succeeds. -/
structure Attempt where
  now : Nat
  rotateOk : Bool
  writeOk : Bool
deriving DecidableEq, Repr

/-- Modelled from the spec: a running logger of the absent `log.go` with the
state of its sink: the logger (`out` is the active sink, `written` the bytes in
it), the last rotation boundary observed, the sinks closed by a rotation with the
bytes each holds (oldest first), and the failed writes recorded (oldest first), the
record through which the process observes them (the spec leaves open whether the
drain returns it or a diagnostic channel shows it). -/
structure Engine where
  logger : Logger
  boundary : Nat
  closed : List (Sink × String)
  failed : List Entry

/-- Modelled from the spec: the start of the background worker of a logger built
by `New`, at a time: the boundary observed is the period of that time. -/
def Engine.start (cal : Calendar) (l : Logger) (now : Nat) : Engine :=
  { logger := l, boundary := cal.period l.config.Rotate l.config.Utc now, closed := [],
    failed := [] }

/-- The logger with the invocations of the handles matching an entry started. -/
def Logger.started (l : Logger) (e : Entry) : Logger :=
  { l with pending := l.pending ++ offers l.handles e }

/-- The logger with a line appended to the bytes of the active sink. -/
def Logger.wrote (l : Logger) (line : String) : Logger :=
  { l with written := l.written ++ line }

/-- The logger with a new, empty active sink. -/
def Logger.reopened (l : Logger) (w : Sink) : Logger :=
  { l with out := w, written := "" }

/-- The logger with its queue replaced. -/
def Logger.requeued (l : Logger) (q : List Entry) : Logger :=
  { l with queue := q }

/-- Modelled from the spec: whether a rotation is due at a write attempt: the
granularity is not none and the period of the time differs from the stored
boundary. -/
def Engine.due (cal : Calendar) (g : Engine) (a : Attempt) : Bool :=
  g.logger.config.Rotate != .R_NONE &&
    cal.period g.logger.config.Rotate g.logger.config.Utc a.now != g.boundary

/-- Modelled from the spec: a rotation: the active sink is closed with what it
holds, the sink of the new period is opened, the stored boundary is updated. -/
def Engine.rotate (cal : Calendar) (g : Engine) (a : Attempt) : Engine :=
  { logger := g.logger.reopened (cal.sinkName g.logger.out g.logger.config.RotatePattern a.now),
    boundary := cal.period g.logger.config.Rotate g.logger.config.Utc a.now,
    closed := g.closed ++ [(g.logger.out, g.logger.written)],
    failed := g.failed }

/-- Modelled from the spec: a successful write: the line of the entry is appended
to the active sink. -/
def Engine.write (lib : Lib) (g : Engine) (e : Entry) : Engine :=
  { g with logger := g.logger.wrote (e.line lib g.logger.config) }

/-- Modelled from the spec: a failed write or rotation: the failure is recorded
and the bytes are not written. -/
def Engine.fail (g : Engine) (e : Entry) : Engine :=
  { g with failed := g.failed ++ [e] }

/-- Whether the line of the entry processed at an attempt lands in the sink: the
rotation, if due, and the write both succeed. -/
def Engine.lands (cal : Calendar) (g : Engine) (a : Attempt) : Bool :=
  (!g.due cal a || a.rotateOk) && a.writeOk

/-- Modelled from the spec: processing of one message by the worker of the absent
`log.go` at a write attempt: the invocations of the matching handles are started;
the rotation check comes before the write and a rotation that is due is done
first; the line is written to the active sink; a failure of the rotation or of the
write is recorded and does not stop the worker. The spec does not say what a
rotation that fails leaves behind: here the active sink and the stored boundary
stay as they were and the bytes are not written. -/
def Engine.process (cal : Calendar) (lib : Lib) (g : Engine) (a : Attempt) (e : Entry) :
    Engine :=
  let g1 : Engine := { g with logger := g.logger.started e }
  if g1.due cal a then
    if a.rotateOk then
      if a.writeOk then (g1.rotate cal a).write lib e else (g1.rotate cal a).fail e
    else g1.fail e
  else if a.writeOk then g1.write lib e else g1.fail e

/-- A step of a run of the engine: a call by the caller at a time, a write attempt
of the worker, or the completion of a started handle invocation. -/
inductive Step where
  | call (now : Nat) (c : Call)
  | work (a : Attempt)
  | finish (i : Nat)

/-- The step of a schedule that a step of the engine stands for, without what the
environment decides. -/
def Step.action : Step → Action
  | .call now c => .call now c
  | .work _ => .work
  | .finish i => .finish i

/-- The engine after one step: a call acts on the logger; a write attempt
processes the oldest queued message, if any; a handle step completes a started
invocation. -/
def Engine.step (cal : Calendar) (lib : Lib) (g : Engine) : Step → Engine
  | .call now c => { g with logger := g.logger.call lib now c }
  | .work a =>
    match g.logger.queue with
    | [] => g
    | e :: rest => Engine.process cal lib { g with logger := g.logger.requeued rest } a e
  | .finish i => { g with logger := g.logger.finish i }

/-- The engine after a list of steps. -/
def Engine.run (cal : Calendar) (lib : Lib) (g : Engine) (steps : List Step) : Engine :=
  steps.foldl (Engine.step cal lib) g

/-- The bytes in the sink, over the successive sinks of a rotating one: what the
closed sinks hold, oldest first, then what the active sink holds. -/
def Engine.stream (g : Engine) : String :=
  concat (g.closed.map Prod.snd) ++ g.logger.written

/-- Modelled from the spec: the condition on which the blocking `Wait()` of the
absent `log.go` returns: every queued message has been processed and every started
handle invocation has completed. `Wait()` takes no step of its own: the worker and
the handles do the work, and the call returns once the condition holds. -/
def Engine.WaitReturns (g : Engine) : Prop :=
  g.logger.queue = [] ∧ g.logger.pending = []

/-- The lines of the entries that landed, in order, of a list of entries each
with whether its line landed. -/
def landedLines (lib : Lib) (config : Config) (ps : List (Entry × Bool)) : String :=
  concat ((ps.filter (fun p => p.2)).map (fun p => p.1.line lib config))

/-- The entries whose line did not land, in order, of a list of entries each with
whether its line landed. -/
def lost (ps : List (Entry × Bool)) : List Entry :=
  (ps.filter (fun p => !p.2)).map Prod.fst

/-- What one step of the engine processes: at a write attempt with a message
queued, the oldest queued message with whether its line lands; nothing at any other
step. -/
def Engine.outcome (cal : Calendar) (g : Engine) : Step → List (Entry × Bool)
  | .work a =>
    match g.logger.queue with
    | [] => []
    | e :: _ => [(e, g.lands cal a)]
  | _ => []

/-- The messages that a list of steps processes, in order, each with whether its
line lands. -/
def Engine.outcomes (cal : Calendar) (lib : Lib) : Engine → List Step → List (Entry × Bool)
  | _, [] => []
  | g, s :: rest => g.outcome cal s ++ Engine.outcomes cal lib (g.step cal lib s) rest

/-- A calendar for concrete runs: hours of 3600 and days of 86400 units of time
counted from time 0, and a file of a period named after the file by appending the
hour. -/
def hours : Calendar :=
  { period := fun r _ now =>
      match r with
      | .R_NONE => 0
      | .R_HOURLY => now / 3600
      | .R_DAILY => now / 86400,
    sinkName := fun w _ now =>
      match w with
      | .file name => .file (name ++ "." ++ toString (now / 3600))
      | other => other }

/-- A library instance for concrete runs: the format is returned as it is and a
timestamp renders as the empty text. -/
def plainLib : Lib := { Sprintf := fun format _ => format, timeText := fun _ _ _ => "" }

end log

/-!
# go-utils, package `set`: model of `set/set.go`

A value of the Go type `any` is the nil interface or a dynamic value. Dynamic
values of the predeclared types carry their payload; a floating-point payload is
either NaN or a number (positive and negative zero, equal as map keys, are one
number). Every other dynamic type (named or composite: slices, maps, structs,
pointers, functions, ...) is described by what the code can observe of it:
whether it implements `error`, whether its values can be hashed as map keys, and
whether a value equals itself.

The map `s.m` is the list of its keys; the order of the list stands for the
unspecified iteration order. Operations return the set after the call, the
result (a returned value or a panic) and the trace of lock operations and map
accesses they perform, in program order.
-/

namespace set

/-! ## Values of type `any` -/

/-- The predeclared integer types. -/
inductive IntType where
  | int
  | int8
  | int16
  | int32
  | int64
  | uint
  | uint8
  | uint16
  | uint32
  | uint64
  | uintptr
deriving DecidableEq, Repr

/-- The predeclared floating-point types. -/
inductive FloatType where
  | float32
  | float64
deriving DecidableEq, Repr

/-- The predeclared complex types. -/
inductive ComplexType where
  | complex64
  | complex128
deriving DecidableEq, Repr

/-- A dynamic type: a predeclared type, or any other type, known by its name. -/
inductive GoType where
  | bool
  | string
  | int (t : IntType)
  | float (t : FloatType)
  | complex (t : ComplexType)
  | named (name : String)
deriving DecidableEq, Repr

/-- The type `byte`, an alias of `uint8`. -/
def GoType.byte : GoType := .int .uint8

/-- The type `rune`, an alias of `int32`. -/
def GoType.rune : GoType := .int .int32

/-- A floating-point payload: NaN, or a number. -/
inductive FloatVal where
  | nan
  | num (x : Int)
deriving DecidableEq, Repr

/-- A value of a type that is not predeclared: the name of its type, whether the
type implements `error`, whether the value can be hashed as a map key, whether it
equals itself under `==`, and what tells it from the other values of the type. -/
structure Other where
  typeName : String
  implementsError : Bool
  hashable : Bool
  selfEqual : Bool
  id : Nat
deriving DecidableEq, Repr

/-- A dynamic (non-nil) value. -/
inductive Value where
  | bool (b : Bool)
  | string (s : String)
  | int (t : IntType) (n : Int)
  | float (t : FloatType) (x : FloatVal)
  | complex (t : ComplexType) (re im : FloatVal)
  | other (o : Other)
deriving DecidableEq, Repr

/-- The Go type `any` (`interface{}`): `none` is the nil interface. -/
abbrev any := Option Value

/-- The dynamic type of a value. -/
def Value.type : Value → GoType
  | .bool _ => .bool
  | .string _ => .string
  | .int t _ => .int t
  | .float t _ => .float t
  | .complex t _ _ => .complex t
  | .other o => .named o.typeName

/-- Whether the dynamic type of a value implements `error`; the predeclared
types have no methods. -/
def Value.implementsError : Value → Bool
  | .other o => o.implementsError
  | _ => false

/-- Whether a value of type `any` can be hashed as a map key; hashing a value of
an unhashable dynamic type panics at run time. -/
def hashable : any → Bool
  | some (.other o) => o.hashable
  | _ => true

/-- Whether a value equals itself under `==`: false for NaN. -/
def selfEq : any → Bool
  | some (.float _ x) => x != .nan
  | some (.complex _ re im) => re != .nan && im != .nan
  | some (.other o) => o.selfEqual
  | _ => true

/-- Equality `==` of two hashable values of type `any`, the equality of map keys:
same dynamic type and equal payload, NaN being equal to nothing. -/
def goEq (a b : any) : Bool := decide (a = b) && selfEq a

/-! ## IsLegal -/

/-- A case of a type switch: a type, or the interface `error`. -/
inductive Case where
  | type (t : GoType)
  | error
deriving DecidableEq, Repr

/-- Whether a dynamic value matches a case of a type switch. -/
def Case.matches (c : Case) (x : Value) : Bool :=
  match c with
  | .type t => x.type == t
  | .error => x.implementsError

/-- The case clause of the type switch of `IsLegal`, in source order. -/
def legalCases : List Case :=
  [.type .bool, .error, .type .string, .type (.complex .complex64),
   .type (.complex .complex128), .type (.float .float32), .type (.float .float64),
   .type (.int .int), .type (.int .int8), .type (.int .int16), .type (.int .int32),
   .type (.int .int64), .type (.int .uint), .type (.int .uint8), .type (.int .uint16),
   .type (.int .uint32), .type (.int .uint64), .type (.int .uintptr)]

/-- `IsLegal` of `set.go`: the type switch on the dynamic type; the nil interface
matches no case. -/
def IsLegal (v : any) : Bool :=
  match v with
  | none => false
  | some x => legalCases.any (fun c => c.matches x)

/-! ## The set and its operations -/

/-- The struct `Set` of `set.go` with its map made, as `New` and `Clear` make it:
the keys of the map `m`. The embedded lock is free between two calls; what an
operation does with it is in its trace. -/
structure Set where
  m : List any
deriving DecidableEq, Repr

/-- A lock operation or a map access. -/
inductive Event where
  | Lock
  | Unlock
  | RLock
  | RUnlock
  | read
  | write
deriving DecidableEq, Repr

/-- A run-time panic. -/
inductive Panic where
  | unhashable
  | index
  | raised (msg : String)
deriving DecidableEq, Repr

/-- How a call ends: it returns a value, or it panics. -/
inductive Result (α : Type) where
  | returned (a : α)
  | panicked (p : Panic)
deriving DecidableEq, Repr

/-- What a call leaves: the set, the result, and the trace of lock operations and
map accesses in program order. -/
structure Outcome (α : Type) where
  set : Set
  result : Result α
  trace : List Event

/-- `New` of `set.go`. -/
def New : Set := { m := [] }

/-- The map assignment `m[k] = struct{}{}` for a hashable key: a key equal to `k`
stays, otherwise `k` is added. -/
def mapAssign (m : List any) (k : any) : List any :=
  if m.any (fun x => goEq x k) then m else m ++ [k]

/-- The first loop of `Add`: false at the first item that is not legal. -/
def checkLegal : List any → Bool
  | [] => true
  | i :: rest => if IsLegal i == false then false else checkLegal rest

/-- The second loop of `Add`: the items are assigned in order; an item that
cannot be hashed panics, after the items before it have been assigned. The
result is the map, the panic if any, and the map writes attempted. -/
def insertAll : List any → List any → List any × Option Panic × List Event
  | m, [] => (m, none, [])
  | m, i :: rest =>
    if hashable i then
      let r := insertAll (mapAssign m i) rest
      (r.1, r.2.1, Event.write :: r.2.2)
    else (m, some .unhashable, [Event.write])

/-- `Add` of `set.go`: lock, deferred unlock, the legality loop, the insertion
loop. -/
def Set.Add (s : Set) (items : List any) : Outcome Bool :=
  if checkLegal items then
    let r := insertAll s.m items
    { set := { m := r.1 },
      result := match r.2.1 with
        | none => .returned true
        | some p => .panicked p,
      trace := [Event.Lock] ++ r.2.2 ++ [Event.Unlock] }
  else
    { set := s, result := .returned false, trace := [Event.Lock, Event.Unlock] }

/-- The formatted printing `fmt.Sprintf("%v", ...)` of the Go library, taken as
given: of a list of items, and of one value. -/
structure Fmt where
  slice : List any → String
  value : any → String

/-- The text of `MustAdd` after "remove the outside square brackets": indexing
an empty text panics. -/
def stripBrackets (value : String) : Except Panic String :=
  match value.data with
  | [] => .error .index
  | c :: rest =>
    if c = '[' ∧ (c :: rest).getLast? = some ']' then .ok (String.mk rest.dropLast)
    else .ok value

/-- `MustAdd` of `set.go`: `Add`, and a panic when it returns false; a panic of
`Add` itself goes through. -/
def Set.MustAdd (f : Fmt) (s : Set) (items : List any) : Outcome Unit :=
  let a := s.Add items
  match a.result with
  | .panicked p => { set := a.set, result := .panicked p, trace := a.trace }
  | .returned true => { set := a.set, result := .returned (), trace := a.trace }
  | .returned false =>
    match stripBrackets (f.slice items) with
    | .error p => { set := a.set, result := .panicked p, trace := a.trace }
    | .ok value =>
      { set := a.set,
        result := .panicked (.raised ("Value is not legal for adding to Set: " ++ value ++ "\n")),
        trace := a.trace }

/-- `Remove` of `set.go`: lock, unlock, then `delete`; deleting a key that
cannot be hashed panics. -/
def Set.Remove (s : Set) (item : any) : Outcome Unit :=
  if hashable item then
    { set := { m := s.m.filter (fun k => !goEq k item) }, result := .returned (),
      trace := [Event.Lock, Event.Unlock, Event.write] }
  else
    { set := s, result := .panicked .unhashable,
      trace := [Event.Lock, Event.Unlock, Event.write] }

/-- `Has` of `set.go`: read lock, deferred read unlock, the lookup; looking up a
key that cannot be hashed panics. -/
def Set.Has (s : Set) (item : any) : Outcome Bool :=
  { set := s,
    result := if hashable item then .returned (s.m.any (fun k => goEq k item))
      else .panicked .unhashable,
    trace := [Event.RLock, Event.read, Event.RUnlock] }

/-- `Len` of `set.go`. -/
def Set.Len (s : Set) : Outcome Nat :=
  { set := s, result := .returned s.m.length, trace := [Event.read] }

/-- `Clear` of `set.go`. -/
def Set.Clear (s : Set) : Outcome Unit :=
  { set := { s with m := [] }, result := .returned (),
    trace := [Event.Lock, Event.write, Event.Unlock] }

/-- `IsEmpty` of `set.go`. -/
def Set.IsEmpty (s : Set) : Outcome Bool :=
  { set := s, result := .returned (if s.m.length == 0 then true else false),
    trace := [Event.read] }

/-! ## Lock discipline -/

/-- What an operation holds of the lock of the set. -/
inductive Held where
  | nothing
  | readLock
  | writeLock
deriving DecidableEq, Repr

/-- Whether, from a state of the lock, every map read of a trace happens with at
least the read lock held and every map write with the write lock held. -/
def guardedFrom : Held → List Event → Bool
  | _, [] => true
  | _, .Lock :: rest => guardedFrom .writeLock rest
  | _, .Unlock :: rest => guardedFrom .nothing rest
  | _, .RLock :: rest => guardedFrom .readLock rest
  | _, .RUnlock :: rest => guardedFrom .nothing rest
  | h, .read :: rest => (h != .nothing) && guardedFrom h rest
  | h, .write :: rest => (h == .writeLock) && guardedFrom h rest

/-- Whether a trace that starts with the lock not held keeps the lock
discipline. -/
def guarded (trace : List Event) : Bool := guardedFrom .nothing trace

/-! ## Well-formed maps, sequences of calls -/

/-- A map of Go: every key can be hashed and no two keys are equal. -/
def Set.WF (s : Set) : Prop :=
  (∀ k ∈ s.m, hashable k = true) ∧ s.m.Pairwise (fun a b => goEq a b = false)

/-- A call that changes the set. -/
inductive Op where
  | Add (items : List any)
  | MustAdd (items : List any)
  | Remove (item : any)
  | Clear

/-- The set a call leaves, also when the call panics. -/
def Set.apply (f : Fmt) (s : Set) : Op → Set
  | .Add items => (s.Add items).set
  | .MustAdd items => (s.MustAdd f items).set
  | .Remove item => (s.Remove item).set
  | .Clear => (s.Clear).set

/-- The set after a sequence of calls. -/
def Set.run (f : Fmt) (s : Set) (ops : List Op) : Set :=
  ops.foldl (Set.apply f) s

/-- `List` of `set.go`: the keys in iteration order. -/
def Set.List (s : Set) : Outcome (List any) :=
  { set := s, result := .returned s.m, trace := [Event.read] }

/-- `String` of `set.go`: `Len` for the capacity, then the keys in iteration
order. -/
def Set.String (f : Fmt) (s : Set) : Outcome String :=
  { set := s,
    result := .returned ("Set\x7b" ++ ", ".intercalate (s.m.map f.value) ++ "\x7d"),
    trace := (s.Len).trace ++ [Event.read] }

/-- A printing instance for concrete runs. -/
def plainFmt : Fmt := { slice := fun _ => "[]", value := fun _ => "" }

/-- An error value of a slice type, as declared by
`type E []int` with a method `Error() string`: it cannot be hashed. -/
def sliceError : any :=
  some (.other { typeName := "E", implementsError := true, hashable := false,
                 selfEqual := false, id := 0 })

/-- An error value as returned by `errors.New`: a pointer, which can be hashed. -/
def pointerError : any :=
  some (.other { typeName := "*errors.errorString", implementsError := true, hashable := true,
                 selfEqual := true, id := 0 })

/-- A slice value `[]int{1}`: not an error, and it cannot be hashed. -/
def intSlice : any :=
  some (.other { typeName := "[]int", implementsError := false, hashable := false,
                 selfEqual := false, id := 0 })

/-- The value `math.NaN()` of type `float64`. -/
def nan64 : any := some (.float .float64 .nan)

/-- An error value of a struct type with a field of type `float64` holding NaN,
as declared by `type F struct{ x float64 }` with a method `Error() string`: it
can be hashed, and it is not equal to itself. -/
def nanError : any :=
  some (.other { typeName := "F", implementsError := true, hashable := true,
                 selfEqual := false, id := 0 })

end set

namespace log

/-! ## Lemmas on characters and level names -/

theorem Char.eq_of_toNat_eq (a b : Char) (h : a.toNat = b.toNat) : a = b := by
  have h2 := congrArg Char.ofNat h
  simpa using h2

theorem Char.toNat_ofNat_ascii (n : Nat) (h : n < 128) : (Char.ofNat n).toNat = n := by
  unfold Char.ofNat
  have hv : n.isValidChar := Or.inl (by omega)
  rw [dif_pos hv]
  simp [Char.ofNatAux, Char.toNat, UInt32.toNat]

/-- For an upper-case letter u, a character upper-cases to u exactly when it
lower-cases to what u lower-cases to. -/
theorem Char.toUpper_eq_iff_toLower_eq (x u : Char) (hu : 65 ≤ u.toNat ∧ u.toNat ≤ 90) :
    x.toUpper = u ↔ x.toLower = u.toLower := by
  have hul : u.toLower = Char.ofNat (u.toNat + 32) := by
    simp [Char.toLower, hu]
  rw [hul]
  by_cases h1 : 97 ≤ x.toNat ∧ x.toNat ≤ 122
  · have hU : x.toUpper = Char.ofNat (x.toNat - 32) := by simp [Char.toUpper, h1]
    have hL : x.toLower = x := by
      have h3 : ¬ (65 ≤ x.toNat ∧ x.toNat ≤ 90) := by omega
      simp [Char.toLower, h3]
    rw [hU, hL]
    constructor
    · intro h
      apply Char.eq_of_toNat_eq
      have h4 := congrArg Char.toNat h
      rw [Char.toNat_ofNat_ascii _ (by omega)] at h4
      rw [Char.toNat_ofNat_ascii _ (by omega)]
      omega
    · intro h
      apply Char.eq_of_toNat_eq
      have h4 := congrArg Char.toNat h
      rw [Char.toNat_ofNat_ascii _ (by omega)] at h4
      rw [Char.toNat_ofNat_ascii _ (by omega)]
      omega
  · have hU : x.toUpper = x := by simp [Char.toUpper, h1]
    rw [hU]
    by_cases h2 : 65 ≤ x.toNat ∧ x.toNat ≤ 90
    · have hL : x.toLower = Char.ofNat (x.toNat + 32) := by simp [Char.toLower, h2]
      rw [hL]
      constructor
      · intro h; rw [h]
      · intro h
        apply Char.eq_of_toNat_eq
        have h4 := congrArg Char.toNat h
        rw [Char.toNat_ofNat_ascii _ (by omega), Char.toNat_ofNat_ascii _ (by omega)] at h4
        omega
    · have hL : x.toLower = x := by simp [Char.toLower, h2]
      rw [hL]
      constructor
      · intro h; subst h; exact absurd hu h2
      · intro h
        have h4 := congrArg Char.toNat h
        rw [Char.toNat_ofNat_ascii _ (by omega)] at h4
        omega

/-- Upper-casing a text gives a word of upper-case letters exactly when the text
equals that word with letter case ignored. -/
theorem map_toUpper_eq_iff (us : List Char) (hus : ∀ u ∈ us, 65 ≤ u.toNat ∧ u.toNat ≤ 90) :
    ∀ xs : List Char, xs.map Char.toUpper = us ↔
      List.Forall₂ (fun x y => x.toLower = y.toLower) xs us := by
  induction us with
  | nil =>
    intro xs
    cases xs <;> simp
  | cons u us ih =>
    intro xs
    cases xs with
    | nil => simp
    | cons x xs =>
      have hu := hus u (List.mem_cons_self _ _)
      have ih2 := ih (fun v hv => hus v (List.mem_cons_of_mem _ hv)) xs
      simp only [List.map_cons, List.cons.injEq, List.forall₂_cons]
      rw [Char.toUpper_eq_iff_toLower_eq x u hu, ih2]

theorem levelName_upper (L : Level) :
    ∀ u ∈ (Level2String L).data, 65 ≤ u.toNat ∧ u.toNat ≤ 90 := by
  cases L <;> decide

theorem String2Level_eq_some_iff (s : String) (L : Level) :
    String2Level s = some L ↔ upper s = (Level2String L).data := by
  constructor
  · intro h
    have h2 := List.find?_some h
    have h3 : (Level2String L).data = upper s := by simpa using h2
    exact h3.symm
  · intro h
    unfold String2Level
    rw [h]
    cases L <;> rfl

/-! ## Level parsing -/

/-- Claim C4: String2Level finds a level exactly for the texts that equal a
level name with letter case ignored, and then returns the level of that name; the
empty text, an unknown text and partial matches are not found. -/
theorem String2Level_ignores_case_only :
    (∀ (s : String) (L : Level), String2Level s = some L ↔ eqIgnoreCase s (Level2String L)) ∧
    (∀ s : String, (String2Level s).isSome = true ↔ ∃ L, eqIgnoreCase s (Level2String L)) ∧
    String2Level "DEBUG" = some .DEBUG ∧ String2Level "notice" = some .NOTICE ∧
    String2Level "Info" = some .INFO ∧ String2Level "wArN" = some .WARN ∧
    String2Level "error" = some .ERROR ∧
    String2Level "" = none ∧ String2Level "haha" = none ∧ String2Level "DEBU" = none ∧
    String2Level "WARNING" = none ∧ String2Level " INFO" = none ∧ String2Level "NOTICE " = none := by
  have key : ∀ (s : String) (L : Level),
      String2Level s = some L ↔ eqIgnoreCase s (Level2String L) := by
    intro s L
    rw [String2Level_eq_some_iff]
    exact map_toUpper_eq_iff _ (levelName_upper L) s.data
  refine ⟨key, ?_, by decide, by decide, by decide, by decide, by decide, by decide, by decide,
    by decide, by decide, by decide, by decide⟩
  intro s
  constructor
  · intro h
    obtain ⟨L, hL⟩ := Option.isSome_iff_exists.mp h
    exact ⟨L, (key s L).mp hL⟩
  · rintro ⟨L, hL⟩
    rw [(key s L).mpr hL]
    rfl

/-! ## Construction and validation -/

/-- Claim C2: for every Config whose Rotate is not none, whatever its
RotatePattern and whatever the table of valid patterns, New on standard output
or standard error fails with the text "Stdout or stderr could not be rotated." and
gives no Logger; the rotate-pattern error is not the one reported. -/
theorem New_rejects_rotation_on_std_streams (patterns : Rotate → List RotatePattern)
    (w : Sink) (config : Config) (handles : List Handle)
    (hw : w = .stdout ∨ w = .stderr) (hr : config.Rotate ≠ .R_NONE) :
    New patterns w config handles = .error "Stdout or stderr could not be rotated." ∧
    New patterns w config handles ≠ .error "Rotate pattern does not match rotate value." ∧
    ∀ l, New patterns w config handles ≠ .ok l := by
  have h : New patterns w config handles = .error "Stdout or stderr could not be rotated." := by
    unfold New
    rw [if_pos ⟨hr, hw⟩]
  rw [h]
  refine ⟨rfl, ?_, ?_⟩
  · intro h2
    injection h2 with h3
    exact absurd h3 (by decide)
  · intro l h2
    cases h2

theorem New_rejects_rotation_on_std_streams_witness :
    (Sink.stderr = .stdout ∨ Sink.stderr = .stderr) ∧
    (Config.mk .LY_DEFAULT "{msg}" .INFO .TF_DEFAULT false .R_DAILY (.other "x")).Rotate
      ≠ .R_NONE ∧
    New (fun _ => [RotatePattern.RP_NONE]) .stderr
      (Config.mk .LY_DEFAULT "{msg}" .INFO .TF_DEFAULT false .R_DAILY (.other "x")) []
      = .error "Stdout or stderr could not be rotated." :=
  ⟨by decide, by decide,
    (New_rejects_rotation_on_std_streams (fun _ => [RotatePattern.RP_NONE]) .stderr
      (Config.mk .LY_DEFAULT "{msg}" .INFO .TF_DEFAULT false .R_DAILY (.other "x")) []
      (by decide) (by decide)).1⟩

theorem append_brace_eq (tag : List Char) (h : '{' ∉ tag) :
    ∀ rest s r : List Char, rest ++ '{' :: s = tag ++ r → ∃ q, rest = tag ++ q := by
  induction tag with
  | nil => intro rest s r _; exact ⟨rest, rfl⟩
  | cons x tag ih =>
    intro rest s r heq
    cases rest with
    | nil =>
      simp only [List.nil_append, List.cons_append, List.cons.injEq] at heq
      exact absurd heq.1 (fun hx => h (by rw [← hx]; exact List.mem_cons_self _ _))
    | cons y rest =>
      simp only [List.cons_append, List.cons.injEq] at heq
      obtain ⟨q, hq⟩ := ih (fun hm => h (List.mem_cons_of_mem _ hm)) rest s r heq.2
      exact ⟨q, by rw [heq.1, hq]; rfl⟩

/-- A text that does not begin with a placeholder does not begin with one either
once a text opening with a brace is appended to it. -/
theorem substitute_cons_append (t l m : List Char) (c : Char) (rest s : List Char)
    (h1 : ∀ r, c = '{' → rest = 'l' :: 'e' :: 'v' :: 'e' :: 'l' :: '}' :: r → False)
    (h2 : ∀ r, c = '{' → rest = 'm' :: 's' :: 'g' :: '}' :: r → False)
    (h3 : ∀ r, c = '{' → rest = 't' :: 'i' :: 'm' :: 'e' :: '}' :: r → False) :
    substitute t l m (c :: (rest ++ '{' :: s)) = c :: substitute t l m (rest ++ '{' :: s) := by
  rw [substitute]
  · intro r hc heq
    obtain ⟨q, hq⟩ := append_brace_eq ['l', 'e', 'v', 'e', 'l', '}'] (by decide) rest s r heq
    exact h1 q hc hq
  · intro r hc heq
    obtain ⟨q, hq⟩ := append_brace_eq ['m', 's', 'g', '}'] (by decide) rest s r heq
    exact h2 q hc hq
  · intro r hc heq
    obtain ⟨q, hq⟩ := append_brace_eq ['t', 'i', 'm', 'e', '}'] (by decide) rest s r heq
    exact h3 q hc hq

theorem substitute_append_level (t l m : List Char) (a b : List Char) :
    substitute t l m (a ++ '{' :: 'l' :: 'e' :: 'v' :: 'e' :: 'l' :: '}' :: b)
      = substitute t l m a ++ l ++ substitute t l m b := by
  induction a using substitute.induct t l m with
  | case1 rest ih => simp [substitute, ih]
  | case2 rest ih => simp [substitute, ih]
  | case3 rest ih => simp [substitute, ih]
  | case4 c rest h1 h2 h3 ih =>
    rw [List.cons_append, substitute_cons_append t l m c rest _ h1 h2 h3, ih]
    rw [substitute]
    · simp
    all_goals assumption
  | case5 => simp [substitute]

theorem substitute_append_msg (t l m : List Char) (a b : List Char) :
    substitute t l m (a ++ '{' :: 'm' :: 's' :: 'g' :: '}' :: b)
      = substitute t l m a ++ m ++ substitute t l m b := by
  induction a using substitute.induct t l m with
  | case1 rest ih => simp [substitute, ih]
  | case2 rest ih => simp [substitute, ih]
  | case3 rest ih => simp [substitute, ih]
  | case4 c rest h1 h2 h3 ih =>
    rw [List.cons_append, substitute_cons_append t l m c rest _ h1 h2 h3, ih]
    rw [substitute]
    · simp
    all_goals assumption
  | case5 => simp [substitute]

theorem substitute_append_time (t l m : List Char) (a b : List Char) :
    substitute t l m (a ++ '{' :: 't' :: 'i' :: 'm' :: 'e' :: '}' :: b)
      = substitute t l m a ++ t ++ substitute t l m b := by
  induction a using substitute.induct t l m with
  | case1 rest ih => simp [substitute, ih]
  | case2 rest ih => simp [substitute, ih]
  | case3 rest ih => simp [substitute, ih]
  | case4 c rest h1 h2 h3 ih =>
    rw [List.cons_append, substitute_cons_append t l m c rest _ h1 h2 h3, ih]
    rw [substitute]
    · simp
    all_goals assumption
  | case5 => simp [substitute]

/-- A text in which none of the three placeholders occurs is copied as it is. -/
theorem substitute_of_no_placeholder (t l m : List Char) (a : List Char)
    (h : ∀ p ∈ placeholders, ¬ p.data <:+: a) : substitute t l m a = a := by
  induction a using substitute.induct t l m with
  | case1 rest ih =>
    exact absurd (List.prefix_append "{level}".data rest).isInfix (h "{level}" (by decide))
  | case2 rest ih =>
    exact absurd (List.prefix_append "{msg}".data rest).isInfix (h "{msg}" (by decide))
  | case3 rest ih =>
    exact absurd (List.prefix_append "{time}".data rest).isInfix (h "{time}" (by decide))
  | case4 c rest h1 h2 h3 ih =>
    rw [substitute]
    · rw [ih (fun p hp hin => h p hp (hin.trans (List.suffix_cons c rest).isInfix))]
    all_goals assumption
  | case5 => rfl

/-- Claim C6: the line of a message is its rendering under the template followed
by a line break; the rendering replaces each occurrence of the placeholders for
level, message and time by the level name, the message text and the rendered
timestamp (it distributes over the template split at any occurrence) and copies
every text without such an occurrence, unrecognised placeholders included; under
the template of ExampleNew_another a Debug message "x" gives the line "DEBUG: x". -/
theorem msg2bytes_substitutes_placeholders :
    (∀ (lib : Lib) (config : Config) (template : String) (m : Message),
      msg2bytes lib config template m = format lib config template m ++ "\n") ∧
    (∀ (lib : Lib) (config : Config) (a b : String) (m : Message),
      format lib config (a ++ "{level}" ++ b) m
        = format lib config a m ++ Level2String m.Level ++ format lib config b m) ∧
    (∀ (lib : Lib) (config : Config) (a b : String) (m : Message),
      format lib config (a ++ "{msg}" ++ b) m
        = format lib config a m ++ m.Msg ++ format lib config b m) ∧
    (∀ (lib : Lib) (config : Config) (a b : String) (m : Message),
      format lib config (a ++ "{time}" ++ b) m
        = format lib config a m ++ lib.timeText config.TimeFormat config.Utc m.Time
          ++ format lib config b m) ∧
    (∀ (lib : Lib) (config : Config) (a : String) (m : Message),
      (∀ p ∈ placeholders, ¬ p.data <:+: a.data) → format lib config a m = a) ∧
    (∀ (config : Config) (now : Nat), config.LayoutStyle = "{level}: {msg}" →
      Entry.line plainLib config (Call.entry plainLib now (.Debug [⟨true, "x"⟩]))
        = "DEBUG: x\n") ∧
    (∀ (config : Config) (m : Message),
      format plainLib config "{foo} {msg}" m = "{foo} " ++ m.Msg) := by
  refine ⟨fun _ _ _ _ => rfl, ?_, ?_, ?_, ?_, ?_, ?_⟩
  · intro lib config a b m
    apply String.ext
    simp only [format, String.data_append]
    rw [List.append_assoc]
    exact substitute_append_level _ _ _ a.data b.data
  · intro lib config a b m
    apply String.ext
    simp only [format, String.data_append]
    rw [List.append_assoc]
    exact substitute_append_msg _ _ _ a.data b.data
  · intro lib config a b m
    apply String.ext
    simp only [format, String.data_append]
    rw [List.append_assoc]
    exact substitute_append_time _ _ _ a.data b.data
  · intro lib config a m h
    apply String.ext
    simp only [format]
    exact substitute_of_no_placeholder _ _ _ a.data h
  · intro config now h
    simp only [Entry.line, Call.entry, Call.leveled, Call.text, Call.level, msg2bytes, format, h]
    rfl
  · intro config m
    apply String.ext
    simp [format, substitute]

theorem msg2bytes_substitutes_placeholders_witness :
    (∀ p ∈ placeholders, ¬ p.data <:+: "{tim} {Level} msg".data) ∧
    format plainLib (Config.mk .LY_LEVEL "{level}: {msg}" .DEBUG .TF_DEFAULT false .R_NONE .RP_NONE)
      "{tim} {Level} msg" (Message.mk 0 "x" .DEBUG) = "{tim} {Level} msg" :=
  ⟨by decide,
    msg2bytes_substitutes_placeholders.2.2.2.2.1 plainLib _ "{tim} {Level} msg" _ (by decide)⟩

/-! ## Message text -/

theorem sprintFrom_append (a : Arg) (rest : List Arg) :
    ∀ (pre : List Arg) (prev : Bool), sprintFrom prev (pre ++ a :: rest)
      = sprintFrom prev (pre ++ [a]) ++ sprintFrom a.isString rest := by
  intro pre
  induction pre with
  | nil =>
    intro prev
    simp [sprintFrom, String.append_assoc]
  | cons x pre ih =>
    intro prev
    rw [List.cons_append, List.cons_append, sprintFrom, sprintFrom, ih x.isString]
    simp only [String.append_assoc]

theorem Sprint_append (a : Arg) (rest : List Arg) (pre : List Arg) :
    Sprint (pre ++ a :: rest) = Sprint (pre ++ [a]) ++ sprintFrom a.isString rest := by
  cases pre with
  | nil => simp [Sprint, sprintFrom]
  | cons x pre =>
    simp only [List.cons_append, Sprint, sprintFrom_append a rest pre x.isString,
      String.append_assoc]

theorem sprintFrom_of_string (prev : Bool) (b : Arg) (post : List Arg)
    (h : prev = true ∨ b.isString = true) : sprintFrom prev (b :: post) = Sprint (b :: post) := by
  rcases h with h | h <;> simp [sprintFrom, Sprint, h]

theorem Sprint_eq_concat (args : List Arg)
    (h : List.Chain' (fun a b => a.isString = true ∨ b.isString = true) args) :
    Sprint args = concat (args.map Arg.text) := by
  induction args with
  | nil => rfl
  | cons a rest ih =>
    cases rest with
    | nil => simp [Sprint, sprintFrom, concat]
    | cons b post =>
      rw [List.chain'_cons] at h
      have h2 := ih h.2
      rw [List.map_cons, concat, ← h2]
      show a.text ++ sprintFrom a.isString (b :: post) = _
      rw [sprintFrom_of_string _ _ _ h.1]

theorem Logger.emit_accept (l : Logger) (now : Nat) (level : Level) (text : String)
    (h : l.config.Level ≤ level) :
    l.emit now level text = { l with queue := l.queue ++
      [{ msg := { Time := now, Msg := text, Level := level }, raw := false }] } := by
  unfold Logger.emit
  rw [if_neg]
  exact Nat.not_lt.mpr h

theorem Logger.emit_drop (l : Logger) (now : Nat) (level : Level) (text : String)
    (h : level < l.config.Level) : l.emit now level text = l := by
  unfold Logger.emit
  rw [if_pos h]

/-- Claim C8: each of Debug, Info, Notice, Warn, Error and Print enqueues, when
its level passes the filter, a message whose text is built from the renderings of
its arguments in order, and each of the methods with a format string one whose
text is the formatted printing of format and arguments. The text built from an
argument list has nothing inserted between two neighbours of which one is a
string: it splits there into the texts of the two parts, and it is the plain
concatenation of the renderings when every two neighbours include a string. So the
Info call of ExampleNew_another enqueues the text "Test Info(). abc456" and its
line is "INFO: Test Info(). abc456". -/
theorem per_level_methods_build_text :
    Sprint [] = "" ∧ (∀ a : Arg, Sprint [a] = a.text) ∧
    (∀ (pre post : List Arg) (a b : Arg), (a.isString = true ∨ b.isString = true) →
      Sprint (pre ++ a :: b :: post) = Sprint (pre ++ [a]) ++ Sprint (b :: post)) ∧
    (∀ args : List Arg, List.Chain' (fun a b => a.isString = true ∨ b.isString = true) args →
      Sprint args = concat (args.map Arg.text)) ∧
    (∀ (l : Logger) (now : Nat) (args : List Arg), l.config.Level ≤ .DEBUG →
      (l.Debug now args).queue = l.queue ++ [⟨⟨now, Sprint args, .DEBUG⟩, false⟩]) ∧
    (∀ (l : Logger) (now : Nat) (args : List Arg), l.config.Level ≤ .INFO →
      (l.Info now args).queue = l.queue ++ [⟨⟨now, Sprint args, .INFO⟩, false⟩]) ∧
    (∀ (l : Logger) (now : Nat) (args : List Arg), l.config.Level ≤ .NOTICE →
      (l.Notice now args).queue = l.queue ++ [⟨⟨now, Sprint args, .NOTICE⟩, false⟩]) ∧
    (∀ (l : Logger) (now : Nat) (args : List Arg), l.config.Level ≤ .WARN →
      (l.Warn now args).queue = l.queue ++ [⟨⟨now, Sprint args, .WARN⟩, false⟩]) ∧
    (∀ (l : Logger) (now : Nat) (args : List Arg), l.config.Level ≤ .ERROR →
      (l.Error now args).queue = l.queue ++ [⟨⟨now, Sprint args, .ERROR⟩, false⟩]) ∧
    (∀ (l : Logger) (now : Nat) (level : Level) (args : List Arg), l.config.Level ≤ level →
      (l.Print now level args).queue = l.queue ++ [⟨⟨now, Sprint args, level⟩, false⟩]) ∧
    (∀ (lib : Lib) (l : Logger) (now : Nat) (format : String) (args : List Arg),
      l.config.Level ≤ .DEBUG →
      (l.Debugf lib now format args).queue
        = l.queue ++ [⟨⟨now, lib.Sprintf format args, .DEBUG⟩, false⟩]) ∧
    (∀ (lib : Lib) (l : Logger) (now : Nat) (format : String) (args : List Arg),
      l.config.Level ≤ .INFO →
      (l.Infof lib now format args).queue
        = l.queue ++ [⟨⟨now, lib.Sprintf format args, .INFO⟩, false⟩]) ∧
    (∀ (lib : Lib) (l : Logger) (now : Nat) (format : String) (args : List Arg),
      l.config.Level ≤ .NOTICE →
      (l.Noticef lib now format args).queue
        = l.queue ++ [⟨⟨now, lib.Sprintf format args, .NOTICE⟩, false⟩]) ∧
    (∀ (lib : Lib) (l : Logger) (now : Nat) (format : String) (args : List Arg),
      l.config.Level ≤ .WARN →
      (l.Warnf lib now format args).queue
        = l.queue ++ [⟨⟨now, lib.Sprintf format args, .WARN⟩, false⟩]) ∧
    (∀ (lib : Lib) (l : Logger) (now : Nat) (format : String) (args : List Arg),
      l.config.Level ≤ .ERROR →
      (l.Errorf lib now format args).queue
        = l.queue ++ [⟨⟨now, lib.Sprintf format args, .ERROR⟩, false⟩]) ∧
    (∀ (lib : Lib) (l : Logger) (now : Nat) (level : Level) (format : String) (args : List Arg),
      l.config.Level ≤ level →
      (l.Printf lib now level format args).queue
        = l.queue ++ [⟨⟨now, lib.Sprintf format args, level⟩, false⟩]) ∧
    ((Logger.fresh (Config.mk .LY_LEVEL "{level}: {msg}" .DEBUG .TF_DEFAULT false .R_NONE .RP_NONE) [] .stdout).Info 4
        [⟨true, "Test Info(). "⟩, ⟨true, "abc"⟩, ⟨false, "456"⟩]).queue
      = [⟨⟨4, "Test Info(). abc456", .INFO⟩, false⟩] ∧
    (((Logger.fresh (Config.mk .LY_LEVEL "{level}: {msg}" .DEBUG .TF_DEFAULT false .R_NONE .RP_NONE) [] .stdout).Info 4
        [⟨true, "Test Info(). "⟩, ⟨true, "abc"⟩, ⟨false, "456"⟩]).queue.map
        (Entry.line plainLib (Config.mk .LY_LEVEL "{level}: {msg}" .DEBUG .TF_DEFAULT false .R_NONE .RP_NONE)))
      = ["INFO: Test Info(). abc456\n"] := by
  refine ⟨rfl, ?_, ?_, Sprint_eq_concat, ?_, ?_, ?_, ?_, ?_, ?_, ?_, ?_, ?_, ?_, ?_, ?_, by decide, by decide⟩
  · intro a
    simp [Sprint, sprintFrom]
  · intro pre post a b h
    rw [Sprint_append, sprintFrom_of_string _ _ _ h]
  · intro l now args h
    simp only [Logger.Debug, Logger.Print, Logger.emit_accept l now _ _ h]
  · intro l now args h
    simp only [Logger.Info, Logger.Print, Logger.emit_accept l now _ _ h]
  · intro l now args h
    simp only [Logger.Notice, Logger.Print, Logger.emit_accept l now _ _ h]
  · intro l now args h
    simp only [Logger.Warn, Logger.Print, Logger.emit_accept l now _ _ h]
  · intro l now args h
    simp only [Logger.Error, Logger.Print, Logger.emit_accept l now _ _ h]
  · intro l now level args h
    simp only [Logger.Print, Logger.emit_accept l now level _ h]
  · intro lib l now format args h
    simp only [Logger.Debugf, Logger.Printf, Logger.emit_accept l now _ _ h]
  · intro lib l now format args h
    simp only [Logger.Infof, Logger.Printf, Logger.emit_accept l now _ _ h]
  · intro lib l now format args h
    simp only [Logger.Noticef, Logger.Printf, Logger.emit_accept l now _ _ h]
  · intro lib l now format args h
    simp only [Logger.Warnf, Logger.Printf, Logger.emit_accept l now _ _ h]
  · intro lib l now format args h
    simp only [Logger.Errorf, Logger.Printf, Logger.emit_accept l now _ _ h]
  · intro lib l now level format args h
    simp only [Logger.Printf, Logger.emit_accept l now level _ h]

theorem per_level_methods_build_text_witness :
    (Logger.fresh (Config.mk .LY_LEVEL "{level}: {msg}" .DEBUG .TF_DEFAULT false .R_NONE .RP_NONE) [] .stdout).config.Level ≤ Level.WARN ∧
    ((Logger.fresh (Config.mk .LY_LEVEL "{level}: {msg}" .DEBUG .TF_DEFAULT false .R_NONE .RP_NONE) [] .stdout).Warn 1 [⟨true, "Test Warn(). "⟩, ⟨true, "warning"⟩]).queue
      = (Logger.fresh (Config.mk .LY_LEVEL "{level}: {msg}" .DEBUG .TF_DEFAULT false .R_NONE .RP_NONE) [] .stdout).queue
        ++ [⟨⟨1, Sprint [⟨true, "Test Warn(). "⟩, ⟨true, "warning"⟩], .WARN⟩, false⟩] ∧
    List.Chain' (fun a b : Arg => a.isString = true ∨ b.isString = true)
      [⟨false, "1"⟩, ⟨true, "abc"⟩, ⟨false, "456"⟩] ∧
    Sprint [⟨false, "1"⟩, ⟨true, "abc"⟩, ⟨false, "456"⟩]
      = concat (List.map Arg.text [⟨false, "1"⟩, ⟨true, "abc"⟩, ⟨false, "456"⟩]) :=
  ⟨by decide,
    per_level_methods_build_text.2.2.2.2.2.2.2.1 (Logger.fresh (Config.mk .LY_LEVEL "{level}: {msg}" .DEBUG .TF_DEFAULT false .R_NONE .RP_NONE) [] .stdout) 1
      [⟨true, "Test Warn(). "⟩, ⟨true, "warning"⟩] (by decide),
    by simp, per_level_methods_build_text.2.2.2.1 _ (by simp)⟩

/-! ## The pipeline -/

theorem concat_append (xs ys : List String) : concat (xs ++ ys) = concat xs ++ concat ys := by
  induction xs with
  | nil => simp [concat]
  | cons x xs ih => simp [concat, ih, String.append_assoc]

theorem Logger.call_eq (lib : Lib) (l : Logger) (now : Nat) (c : Call) :
    l.call lib now c = if c.accepted l.config.Level = true
      then { l with queue := l.queue ++ [c.entry lib now] } else l := by
  have emit_eq : ∀ (level : Level) (text : String), l.emit now level text
      = if decide (l.config.Level ≤ level) = true
        then { l with queue := l.queue ++ [⟨⟨now, text, level⟩, false⟩] } else l := by
    intro level text
    by_cases h : l.config.Level ≤ level
    · rw [Logger.emit_accept l now level text h, if_pos (decide_eq_true h)]
    · rw [Logger.emit_drop l now level text (Nat.not_le.mp h), if_neg]
      simpa using h
  cases c <;>
    simp [Logger.call, Logger.Debug, Logger.Info, Logger.Notice, Logger.Warn, Logger.Error,
      Logger.Debugf, Logger.Infof, Logger.Noticef, Logger.Warnf, Logger.Errorf, Logger.Print,
      Logger.Printf, Logger.Write, emit_eq, Call.accepted, Call.leveled, Call.entry, Call.text,
      Call.level]

theorem foldl_process (lib : Lib) : ∀ (es : List Entry) (l : Logger),
    es.foldl (Logger.process lib) l
      = { l with written := l.written ++ concat (es.map (Entry.line lib l.config)),
                 pending := l.pending ++ es.flatMap (offers l.handles) } := by
  intro es
  induction es with
  | nil => intro l; cases l; simp [concat]
  | cons e es ih =>
    intro l
    rw [List.foldl_cons, ih]
    simp [Logger.process, concat, String.append_assoc]

theorem Logger.Wait_eq (lib : Lib) (l : Logger) :
    l.Wait lib = { l with written := l.lines lib, queue := [], pending := [],
                          invoked := l.records } := by
  simp [Logger.Wait, foldl_process, Logger.lines, Logger.records]

theorem eraseIdx_perm {α : Type} : ∀ (xs : List α) (i : Nat) (p : α),
    xs[i]? = some p → (p :: xs.eraseIdx i).Perm xs := by
  intro xs
  induction xs with
  | nil => intro i p h; simp at h
  | cons x xs ih =>
    intro i p h
    cases i with
    | zero =>
      simp at h
      subst h
      simp
    | succ i =>
      simp at h
      exact (List.Perm.swap x p _).trans ((ih i p h).cons x)

theorem Logger.step_config (lib : Lib) (l : Logger) (a : Action) :
    (l.step lib a).config = l.config ∧ (l.step lib a).handles = l.handles := by
  cases a with
  | call now c =>
    simp only [Logger.step, Logger.call_eq]
    split <;> simp
  | work =>
    simp only [Logger.step, Logger.work]
    split <;> simp [Logger.process]
  | finish i =>
    simp only [Logger.step, Logger.finish]
    split <;> simp

theorem Logger.step_records (lib : Lib) (l : Logger) (a : Action) :
    ((l.step lib a).records).Perm
      (l.records ++ (enqueued lib l.config.Level [a]).flatMap (offers l.handles)) := by
  cases a with
  | call now c =>
    simp only [Logger.step, Logger.call_eq, enqueued]
    split <;> simp [Logger.records]
  | work =>
    simp only [Logger.step, Logger.work, enqueued]
    split
    · simp
    · rename_i e rest h
      simp [Logger.records, Logger.process, h]
  | finish i =>
    simp only [Logger.step, Logger.finish, enqueued]
    split
    · simp
    · rename_i p h
      simp only [Logger.records, List.flatMap_nil, List.append_nil, List.append_assoc]
      refine List.Perm.append_left _ ?_
      rw [List.singleton_append, ← List.cons_append]
      exact List.Perm.append_right _ (eraseIdx_perm _ i p h)

theorem enqueued_cons (lib : Lib) (M : Level) (a : Action) (as : List Action) :
    enqueued lib M (a :: as) = enqueued lib M [a] ++ enqueued lib M as := by
  cases a with
  | call now c =>
    simp only [enqueued]
    split <;> simp
  | work => simp [enqueued]
  | finish i => simp [enqueued]

theorem enqueued_append (lib : Lib) (M : Level) (as bs : List Action) :
    enqueued lib M (as ++ bs) = enqueued lib M as ++ enqueued lib M bs := by
  induction as with
  | nil => simp [enqueued]
  | cons a as ih =>
    rw [List.cons_append, enqueued_cons, ih, enqueued_cons lib M a as, List.append_assoc]

theorem Logger.run_config (lib : Lib) : ∀ (as : List Action) (l : Logger),
    (l.run lib as).config = l.config ∧ (l.run lib as).handles = l.handles := by
  intro as
  induction as with
  | nil => intro l; exact ⟨rfl, rfl⟩
  | cons a as ih =>
    intro l
    have h1 := ih (l.step lib a)
    have h2 := Logger.step_config lib l a
    simp only [Logger.run, List.foldl_cons] at h1 ⊢
    exact ⟨h1.1.trans h2.1, h1.2.trans h2.2⟩

theorem Logger.run_records (lib : Lib) : ∀ (as : List Action) (l : Logger),
    ((l.run lib as).records).Perm
      (l.records ++ (enqueued lib l.config.Level as).flatMap (offers l.handles)) := by
  intro as
  induction as with
  | nil => intro l; simp [Logger.run, enqueued]
  | cons a as ih =>
    intro l
    have h1 := ih (l.step lib a)
    have h2 := Logger.step_config lib l a
    simp only [Logger.run, List.foldl_cons] at h1 ⊢
    rw [h2.1, h2.2] at h1
    refine h1.trans ?_
    rw [enqueued_cons lib _ a as, List.flatMap_append, ← List.append_assoc]
    exact List.Perm.append_right _ (Logger.step_records lib l a)

theorem mem_offers (handles : List Handle) (e : Entry) (h : Handle) (m : Message) :
    (h, m) ∈ offers handles e ↔ h ∈ handles ∧ h.Level ≤ e.msg.Level ∧ m = e.msg := by
  simp only [offers, List.mem_map, List.mem_filter, decide_eq_true_eq, Prod.mk.injEq]
  constructor
  · rintro ⟨h2, ⟨hm, hl⟩, rfl, rfl⟩
    exact ⟨hm, hl, rfl⟩
  · rintro ⟨hm, hl, rfl⟩
    exact ⟨h, ⟨hm, hl⟩, rfl, rfl⟩

/-- Claim C5: processing a message starts an invocation of a registered handle
exactly when the level of the message is at least the threshold of the handle,
whatever the minimum level of the logger; after any schedule and the drain a freshly
built logger has invoked a registered handle with a processed message if and only
if that holds; with Level INFO and a handle at WARN, the calls Debug, Info, Warn,
Error invoke the handle for Warn and Error only. -/
theorem handle_invoked_iff_level_ge_threshold :
    (∀ (handles : List Handle) (e : Entry) (h : Handle), h ∈ handles →
      ((h, e.msg) ∈ offers handles e ↔ h.Level ≤ e.msg.Level)) ∧
    (∀ (lib : Lib) (l : Logger) (e : Entry),
      (Logger.process lib l e).pending = l.pending ++ offers l.handles e) ∧
    (∀ (lib : Lib) (config : Config) (handles : List Handle) (w : Sink) (as : List Action)
        (h : Handle) (e : Entry),
      h ∈ handles → e ∈ enqueued lib config.Level as →
      ((h, e.msg) ∈ (((Logger.fresh config handles w).run lib as).Wait lib).invoked
        ↔ h.Level ≤ e.msg.Level)) ∧
    ((Logger.run plainLib
        (Logger.fresh (Config.mk .LY_MSGONLY "{msg}" .INFO .TF_DEFAULT false .R_NONE .RP_NONE)
          [⟨0, .WARN⟩] .stdout)
        [.call 1 (.Debug [⟨true, "debug"⟩]), .call 2 (.Info [⟨true, "info"⟩]),
          .call 3 (.Warn [⟨true, "warn"⟩]), .call 4 (.Error [⟨true, "error"⟩])]).Wait
          plainLib).invoked
      = [(⟨0, .WARN⟩, ⟨3, "warn", .WARN⟩), (⟨0, .WARN⟩, ⟨4, "error", .ERROR⟩)] ∧
    ((Logger.run plainLib
        (Logger.fresh (Config.mk .LY_MSGONLY "{msg}" .INFO .TF_DEFAULT false .R_NONE .RP_NONE)
          [⟨0, .WARN⟩] .stdout)
        [.call 1 (.Debug [⟨true, "debug"⟩]), .call 2 (.Info [⟨true, "info"⟩]),
          .call 3 (.Warn [⟨true, "warn"⟩]), .call 4 (.Error [⟨true, "error"⟩])]).Wait
          plainLib).written
      = "info\nwarn\nerror\n" := by
  refine ⟨?_, fun _ _ _ => rfl, ?_, ?_, ?_⟩
  · intro handles e h hm
    rw [mem_offers]
    exact ⟨fun h2 => h2.2.1, fun h2 => ⟨hm, h2, rfl⟩⟩
  · intro lib config handles w as h e hm he
    rw [Logger.Wait_eq]
    have hp : (((Logger.fresh config handles w).run lib as).records).Perm
        ((enqueued lib config.Level as).flatMap (offers handles)) := by
      have h0 := Logger.run_records lib as (Logger.fresh config handles w)
      have h1 : (Logger.fresh config handles w).records = [] := rfl
      rw [h1, List.nil_append] at h0
      exact h0
    show (h, e.msg) ∈ ((Logger.fresh config handles w).run lib as).records ↔ _
    rw [hp.mem_iff, List.mem_flatMap]
    constructor
    · rintro ⟨e2, _, h2⟩
      obtain ⟨_, h3, h4⟩ := (mem_offers handles e2 h e.msg).mp h2
      rw [h4]
      exact h3
    · intro h2
      exact ⟨e, he, (mem_offers handles e h e.msg).mpr ⟨hm, h2, rfl⟩⟩
  · decide
  · decide

theorem handle_invoked_iff_level_ge_threshold_witness :
    (⟨0, .WARN⟩ : Handle) ∈ [(⟨0, .WARN⟩ : Handle)] ∧
    (⟨⟨3, "warn", .WARN⟩, false⟩ : Entry) ∈ enqueued plainLib .INFO
        [.call 1 (.Debug [⟨true, "debug"⟩]), .work, .call 3 (.Warn [⟨true, "warn"⟩])] ∧
    (((⟨0, .WARN⟩ : Handle), (⟨3, "warn", .WARN⟩ : Message)) ∈
      (((Logger.fresh (Config.mk .LY_MSGONLY "{msg}" .INFO .TF_DEFAULT false .R_NONE .RP_NONE)
          [⟨0, .WARN⟩] .stdout).run plainLib
        [.call 1 (.Debug [⟨true, "debug"⟩]), .work, .call 3 (.Warn [⟨true, "warn"⟩])]).Wait
          plainLib).invoked
      ↔ Level.WARN ≤ Level.WARN) :=
  ⟨by decide, by decide,
    handle_invoked_iff_level_ge_threshold.2.2.1 plainLib
      (Config.mk .LY_MSGONLY "{msg}" .INFO .TF_DEFAULT false .R_NONE .RP_NONE)
      [⟨0, .WARN⟩] .stdout
      [.call 1 (.Debug [⟨true, "debug"⟩]), .work, .call 3 (.Warn [⟨true, "warn"⟩])]
      ⟨0, .WARN⟩ ⟨⟨3, "warn", .WARN⟩, false⟩ (by decide) (by decide)⟩

/-! ## The sink: rotation, write failure, drain -/

theorem landedLines_append (lib : Lib) (config : Config) (ps qs : List (Entry × Bool)) :
    landedLines lib config (ps ++ qs) = landedLines lib config ps ++ landedLines lib config qs := by
  simp [landedLines, List.filter_append, concat_append]

theorem lost_append (ps qs : List (Entry × Bool)) : lost (ps ++ qs) = lost ps ++ lost qs := by
  simp [lost, List.filter_append]

theorem Engine.process_logger (cal : Calendar) (lib : Lib) (g : Engine) (a : Attempt)
    (e : Entry) :
    (Engine.process cal lib g a e).logger.config = g.logger.config ∧
    (Engine.process cal lib g a e).logger.handles = g.logger.handles ∧
    (Engine.process cal lib g a e).logger.queue = g.logger.queue ∧
    (Engine.process cal lib g a e).logger.pending
      = g.logger.pending ++ offers g.logger.handles e ∧
    (Engine.process cal lib g a e).logger.invoked = g.logger.invoked := by
  unfold Engine.process
  simp only
  split
  · split
    · split <;> exact ⟨rfl, rfl, rfl, rfl, rfl⟩
    · exact ⟨rfl, rfl, rfl, rfl, rfl⟩
  · split <;> exact ⟨rfl, rfl, rfl, rfl, rfl⟩

theorem Engine.process_sink (cal : Calendar) (lib : Lib) (g : Engine) (a : Attempt)
    (e : Entry) :
    (Engine.process cal lib g a e).stream
      = g.stream ++ landedLines lib g.logger.config [(e, g.lands cal a)] ∧
    (Engine.process cal lib g a e).failed = g.failed ++ lost [(e, g.lands cal a)] := by
  have hdue : Engine.due cal { g with logger := g.logger.started e } a = g.due cal a := rfl
  unfold Engine.process
  simp only [hdue]
  by_cases hd : g.due cal a = true
  · rw [if_pos hd]
    by_cases hr : a.rotateOk = true
    · rw [if_pos hr]
      by_cases hw : a.writeOk = true
      · rw [if_pos hw]
        simp [Engine.lands, hd, hr, hw, landedLines, lost, concat, Engine.stream, Engine.write,
          Engine.rotate, Logger.wrote, Logger.reopened, Logger.started, concat_append,
          String.append_assoc]
      · rw [if_neg hw]
        simp [Engine.lands, hd, hr, hw, landedLines, lost, concat, Engine.stream, Engine.fail,
          Engine.rotate, Logger.reopened, Logger.started, concat_append]
    · rw [if_neg hr]
      simp [Engine.lands, hd, hr, landedLines, lost, concat, Engine.stream, Engine.fail,
        Logger.started]
  · rw [if_neg hd]
    by_cases hw : a.writeOk = true
    · rw [if_pos hw]
      simp [Engine.lands, hd, hw, landedLines, lost, concat, Engine.stream, Engine.write,
        Logger.wrote, Logger.started, String.append_assoc]
    · rw [if_neg hw]
      simp [Engine.lands, hd, hw, landedLines, lost, concat, Engine.stream, Engine.fail,
        Logger.started]

theorem Engine.step_keeps_config (cal : Calendar) (lib : Lib) (g : Engine) (s : Step) :
    (g.step cal lib s).logger.config = g.logger.config ∧
    (g.step cal lib s).logger.handles = g.logger.handles := by
  cases s with
  | call now c => exact Logger.step_config lib g.logger (.call now c)
  | work a =>
    simp only [Engine.step]
    split
    · exact ⟨rfl, rfl⟩
    · rename_i e rest hq
      have h := Engine.process_logger cal lib { g with logger := g.logger.requeued rest } a e
      exact ⟨h.1, h.2.1⟩
  | finish i => exact Logger.step_config lib g.logger (.finish i)

theorem Engine.step_invocations (cal : Calendar) (lib : Lib) (g : Engine) (s : Step) :
    ((g.step cal lib s).logger.records).Perm
      (g.logger.records
        ++ (enqueued lib g.logger.config.Level [s.action]).flatMap (offers g.logger.handles)) := by
  cases s with
  | call now c => exact Logger.step_records lib g.logger (.call now c)
  | work a =>
    simp only [Engine.step, Step.action, enqueued, List.flatMap_nil, List.append_nil]
    split
    · exact List.Perm.refl _
    · rename_i e rest hq
      have h := Engine.process_logger cal lib { g with logger := g.logger.requeued rest } a e
      obtain ⟨_, h2, h3, h4, h5⟩ := h
      rw [Logger.records, h2, h3, h4, h5]
      simp [Logger.records, Logger.requeued, hq]
  | finish i => exact Logger.step_records lib g.logger (.finish i)

theorem Engine.step_delivers (cal : Calendar) (lib : Lib) (g : Engine) (s : Step) :
    (g.outcome cal s).map Prod.fst ++ (g.step cal lib s).logger.queue
      = g.logger.queue ++ enqueued lib g.logger.config.Level [s.action] ∧
    (g.step cal lib s).stream = g.stream ++ landedLines lib g.logger.config (g.outcome cal s) ∧
    (g.step cal lib s).failed = g.failed ++ lost (g.outcome cal s) := by
  cases s with
  | call now c =>
    refine ⟨?_, ?_, ?_⟩
    · simp only [Engine.outcome, Engine.step, Step.action, enqueued, Logger.call_eq,
        List.map_nil, List.nil_append]
      split <;> simp
    · simp only [Engine.outcome, Engine.step, Logger.call_eq, Engine.stream]
      split <;> simp [landedLines, concat]
    · simp [Engine.outcome, Engine.step, lost]
  | work a =>
    simp only [Engine.outcome, Engine.step, Step.action, enqueued, List.append_nil]
    split
    · rename_i hq
      exact ⟨by simp [hq], by simp [landedLines, concat], by simp [lost]⟩
    · rename_i e rest hq
      have h1 := Engine.process_logger cal lib { g with logger := g.logger.requeued rest } a e
      have h2 := Engine.process_sink cal lib { g with logger := g.logger.requeued rest } a e
      refine ⟨?_, ?_, ?_⟩
      · rw [h1.2.2.1]
        simp [Logger.requeued, hq]
      · exact h2.1
      · exact h2.2
  | finish i =>
    refine ⟨?_, ?_, ?_⟩
    · simp only [Engine.outcome, Engine.step, Step.action, enqueued, Logger.finish,
        List.map_nil, List.nil_append, List.append_nil]
      split <;> rfl
    · simp only [Engine.outcome, Engine.step, Logger.finish, Engine.stream]
      split <;> simp [landedLines, concat]
    · simp [Engine.outcome, Engine.step, lost]

theorem Engine.run_keeps_config (cal : Calendar) (lib : Lib) : ∀ (steps : List Step) (g : Engine),
    (g.run cal lib steps).logger.config = g.logger.config ∧
    (g.run cal lib steps).logger.handles = g.logger.handles := by
  intro steps
  induction steps with
  | nil => intro g; exact ⟨rfl, rfl⟩
  | cons s steps ih =>
    intro g
    have h1 := ih (g.step cal lib s)
    have h2 := Engine.step_keeps_config cal lib g s
    simp only [Engine.run, List.foldl_cons] at h1 ⊢
    exact ⟨h1.1.trans h2.1, h1.2.trans h2.2⟩

theorem Engine.run_invocations (cal : Calendar) (lib : Lib) : ∀ (steps : List Step) (g : Engine),
    ((g.run cal lib steps).logger.records).Perm
      (g.logger.records ++ (enqueued lib g.logger.config.Level (steps.map Step.action)).flatMap
        (offers g.logger.handles)) := by
  intro steps
  induction steps with
  | nil => intro g; simp [Engine.run, enqueued]
  | cons s steps ih =>
    intro g
    have h1 := ih (g.step cal lib s)
    have h2 := Engine.step_keeps_config cal lib g s
    simp only [Engine.run, List.foldl_cons] at h1 ⊢
    rw [h2.1, h2.2] at h1
    refine h1.trans ?_
    rw [List.map_cons, enqueued_cons lib _ s.action, List.flatMap_append, ← List.append_assoc]
    exact List.Perm.append_right _ (Engine.step_invocations cal lib g s)

theorem Engine.run_delivers (cal : Calendar) (lib : Lib) : ∀ (steps : List Step) (g : Engine),
    (g.outcomes cal lib steps).map Prod.fst ++ (g.run cal lib steps).logger.queue
      = g.logger.queue ++ enqueued lib g.logger.config.Level (steps.map Step.action) ∧
    (g.run cal lib steps).stream
      = g.stream ++ landedLines lib g.logger.config (g.outcomes cal lib steps) ∧
    (g.run cal lib steps).failed = g.failed ++ lost (g.outcomes cal lib steps) := by
  intro steps
  induction steps with
  | nil =>
    intro g
    exact ⟨by simp [Engine.outcomes, Engine.run, enqueued],
      by simp [Engine.outcomes, Engine.run, landedLines, concat],
      by simp [Engine.outcomes, Engine.run, lost]⟩
  | cons s steps ih =>
    intro g
    obtain ⟨hq1, hq2, hq3⟩ := ih (g.step cal lib s)
    obtain ⟨hp1, hp2, hp3⟩ := Engine.step_delivers cal lib g s
    have h2 := Engine.step_keeps_config cal lib g s
    simp only [Engine.run, List.foldl_cons, Engine.outcomes] at hq1 hq2 hq3 ⊢
    rw [h2.1] at hq1 hq2
    refine ⟨?_, ?_, ?_⟩
    · rw [List.map_append, List.append_assoc, hq1, ← List.append_assoc, hp1,
        List.map_cons, List.append_assoc]
      congr 1
      exact (enqueued_cons lib _ s.action _).symm
    · rw [hq2, hp2, landedLines_append, String.append_assoc]
    · rw [hq3, hp3, lost_append, List.append_assoc]

theorem Engine.step_plain (cal : Calendar) (lib : Lib) (g : Engine) (s : Step)
    (hr : g.logger.config.Rotate = .R_NONE) (hw : ∀ a, s = .work a → a.writeOk = true) :
    g.step cal lib s = { g with logger := g.logger.step lib s.action } := by
  cases s with
  | call now c => rfl
  | work a =>
    have hok := hw a rfl
    simp only [Engine.step, Step.action, Logger.step, Logger.work]
    split
    · rfl
    · rename_i e rest hq
      have hd : Engine.due cal
          { g with logger := (g.logger.requeued rest).started e } a = false := by
        simp [Engine.due, Logger.requeued, Logger.started, hr]
      simp only [Engine.process, hd, hok, if_true]
      rfl
  | finish i => rfl

theorem Engine.run_plain (cal : Calendar) (lib : Lib) : ∀ (steps : List Step) (g : Engine),
    g.logger.config.Rotate = .R_NONE →
    (∀ a, Step.work a ∈ steps → a.writeOk = true) →
    g.run cal lib steps = { g with logger := g.logger.run lib (steps.map Step.action) } := by
  intro steps
  induction steps with
  | nil => intro g _ _; rfl
  | cons s steps ih =>
    intro g hr hw
    have h1 := Engine.step_plain cal lib g s hr
      (fun a ha => hw a (by rw [ha]; exact List.mem_cons_self _ _))
    have h2 := Engine.step_keeps_config cal lib g s
    have h3 := ih (g.step cal lib s) (by rw [h2.1]; exact hr)
      (fun a ha => hw a (List.mem_cons_of_mem _ ha))
    simp only [Engine.run, Logger.run, List.foldl_cons, List.map_cons] at h3 ⊢
    rw [h3, h1]

theorem Engine.run_append (cal : Calendar) (lib : Lib) (g : Engine) (xs ys : List Step) :
    g.run cal lib (xs ++ ys) = (g.run cal lib xs).run cal lib ys := by
  simp [Engine.run, List.foldl_append]

theorem Engine.works_empty_queue (cal : Calendar) (lib : Lib) : ∀ (ats : List Attempt)
    (g : Engine), ats.length = g.logger.queue.length →
    (g.run cal lib (ats.map Step.work)).logger.queue = [] := by
  intro ats
  induction ats with
  | nil =>
    intro g h
    exact List.eq_nil_of_length_eq_zero h.symm
  | cons a ats ih =>
    intro g h
    cases hq : g.logger.queue with
    | nil => rw [hq] at h; simp at h
    | cons e rest =>
      rw [hq] at h
      simp only [List.map_cons, Engine.run, List.foldl_cons]
      apply ih
      simp only [Engine.step, hq]
      rw [(Engine.process_logger cal lib _ a e).2.2.1]
      simpa [Logger.requeued] using h

theorem Engine.finishes_empty_pending (cal : Calendar) (lib : Lib) : ∀ (n : Nat) (g : Engine),
    g.logger.pending.length = n →
    (g.run cal lib (List.replicate n (Step.finish 0))).logger.pending = [] ∧
    (g.run cal lib (List.replicate n (Step.finish 0))).logger.queue = g.logger.queue := by
  intro n
  induction n with
  | zero =>
    intro g h
    exact ⟨List.eq_nil_of_length_eq_zero h, rfl⟩
  | succ n ih =>
    intro g h
    cases hp : g.logger.pending with
    | nil => rw [hp] at h; simp at h
    | cons p rest =>
      rw [hp] at h
      simp only [List.replicate_succ, Engine.run, List.foldl_cons]
      have hstep : (g.step cal lib (.finish 0)).logger.pending = rest ∧
          (g.step cal lib (.finish 0)).logger.queue = g.logger.queue := by
        simp [Engine.step, Logger.finish, hp]
      have h2 := ih (g.step cal lib (.finish 0)) (by rw [hstep.1]; simpa using h)
      simp only [Engine.run] at h2
      exact ⟨h2.1, h2.2.trans hstep.2⟩

theorem landedLines_of_mem (lib : Lib) (config : Config) (e : Entry) :
    ∀ ps : List (Entry × Bool), (e, true) ∈ ps →
    ∃ before after : String, landedLines lib config ps = before ++ e.line lib config ++ after := by
  intro ps h
  obtain ⟨s, t, hst⟩ := List.append_of_mem h
  refine ⟨landedLines lib config s, landedLines lib config t, ?_⟩
  rw [hst, landedLines_append]
  have h1 : landedLines lib config ((e, true) :: t)
      = e.line lib config ++ landedLines lib config t := by
    simp [landedLines, concat]
  rw [h1, String.append_assoc]

theorem lost_of_mem (e : Entry) (ps : List (Entry × Bool)) (h : (e, false) ∈ ps) :
    e ∈ lost ps := by
  simp only [lost, List.mem_map, List.mem_filter]
  exact ⟨(e, false), ⟨h, rfl⟩, rfl⟩

theorem delivered_of_mem (lib : Lib) (config : Config) (e : Entry) (ps : List (Entry × Bool))
    (h : e ∈ ps.map Prod.fst) :
    (∃ before after : String, landedLines lib config ps = before ++ e.line lib config ++ after)
      ∨ e ∈ lost ps := by
  obtain ⟨p, hp, hpe⟩ := List.mem_map.mp h
  obtain ⟨e2, b⟩ := p
  simp only at hpe
  subst hpe
  cases b with
  | true => exact Or.inl (landedLines_of_mem lib config e2 ps hp)
  | false => exact Or.inr (lost_of_mem e2 ps hp)

theorem Logger.works_eq (lib : Lib) : ∀ (q : List Entry) (l : Logger), l.queue = q →
    l.run lib (List.replicate q.length Action.work)
      = q.foldl (Logger.process lib) { l with queue := [] } := by
  intro q
  induction q with
  | nil =>
    intro l h
    cases l
    simp only at h
    subst h
    rfl
  | cons e rest ih =>
    intro l h
    have hstep : l.step lib .work = Logger.process lib { l with queue := rest } e := by
      simp only [Logger.step, Logger.work, h]
    have hq : (Logger.process lib { l with queue := rest } e).queue = rest := rfl
    simp only [List.length_cons, List.replicate_succ, Logger.run, List.foldl_cons]
    have h2 := ih _ hq
    simp only [Logger.run] at h2
    rw [hstep, h2]
    rfl

theorem Logger.finishes_eq (lib : Lib) : ∀ (p : List (Handle × Message)) (l : Logger),
    l.pending = p →
    l.run lib (List.replicate p.length (Action.finish 0))
      = { l with pending := [], invoked := l.invoked ++ p } := by
  intro p
  induction p with
  | nil =>
    intro l h
    cases l
    simp only at h
    subst h
    simp [Logger.run]
  | cons x rest ih =>
    intro l h
    have hstep : l.step lib (.finish 0)
        = { l with pending := rest, invoked := l.invoked ++ [x] } := by
      simp [Logger.step, Logger.finish, h]
    simp only [List.length_cons, List.replicate_succ, Logger.run, List.foldl_cons]
    have h2 := ih { l with pending := rest, invoked := l.invoked ++ [x] } rfl
    simp only [Logger.run] at h2
    rw [hstep, h2]
    simp

theorem Logger.Wait_eq_run (lib : Lib) (l : Logger) :
    l.run lib (List.replicate l.queue.length Action.work
        ++ List.replicate (l.pending ++ l.queue.flatMap (offers l.handles)).length
          (Action.finish 0))
      = l.Wait lib := by
  have h1 := Logger.works_eq lib l.queue l rfl
  rw [foldl_process] at h1
  have hrun : ∀ as bs : List Action, l.run lib (as ++ bs) = (l.run lib as).run lib bs := by
    intro as bs
    simp [Logger.run, List.foldl_append]
  rw [hrun, h1]
  rw [Logger.finishes_eq lib (l.pending ++ l.queue.flatMap (offers l.handles)) _ rfl]
  simp [Logger.Wait_eq, Logger.lines, Logger.records]

theorem Engine.drain_in_place (cal : Calendar) (lib : Lib) (g : Engine) (now : Nat)
    (hr : g.logger.config.Rotate = .R_NONE) :
    g.run cal lib (List.replicate g.logger.queue.length (Step.work ⟨now, true, true⟩)
        ++ List.replicate (g.logger.pending ++ g.logger.queue.flatMap
            (offers g.logger.handles)).length (Step.finish 0))
      = { g with logger := g.logger.Wait lib } ∧
    Engine.WaitReturns { g with logger := g.logger.Wait lib } := by
  constructor
  · rw [Engine.run_plain cal lib _ g hr]
    · rw [← Logger.Wait_eq_run lib g.logger]
      simp [Step.action]
    · intro a ha
      simp only [List.mem_append, List.mem_replicate] at ha
      rcases ha with ⟨_, h⟩ | ⟨_, h⟩
      · injection h with h
        rw [h]
      · cases h
  · rw [Logger.Wait_eq]
    exact ⟨rfl, rfl⟩

/-- Claim C10, the statement as written fails: a message is enqueued, the worker
processes it and the write fails; every queued message has been processed and no
handle invocation is open, so Wait returns, yet the sink holds no line of the
message: the message has not been written, its failure has been recorded. -/
theorem Wait_returns_after_failed_write :
    ((Engine.start hours
        (Logger.fresh (Config.mk .LY_MSGONLY "{msg}" .INFO .TF_DEFAULT false .R_NONE .RP_NONE)
          [⟨0, .WARN⟩] (.file "app.log")) 0).run hours plainLib
        [.call 1 (.Warn [⟨true, "warn"⟩])]).logger.queue
      = [⟨⟨1, "warn", .WARN⟩, false⟩] ∧
    ((Engine.start hours
        (Logger.fresh (Config.mk .LY_MSGONLY "{msg}" .INFO .TF_DEFAULT false .R_NONE .RP_NONE)
          [⟨0, .WARN⟩] (.file "app.log")) 0).run hours plainLib
        [.call 1 (.Warn [⟨true, "warn"⟩]), .work ⟨2, true, false⟩,
          .finish 0]).WaitReturns ∧
    ((Engine.start hours
        (Logger.fresh (Config.mk .LY_MSGONLY "{msg}" .INFO .TF_DEFAULT false .R_NONE .RP_NONE)
          [⟨0, .WARN⟩] (.file "app.log")) 0).run hours plainLib
        [.call 1 (.Warn [⟨true, "warn"⟩]), .work ⟨2, true, false⟩, .finish 0]).stream = "" ∧
    ((Engine.start hours
        (Logger.fresh (Config.mk .LY_MSGONLY "{msg}" .INFO .TF_DEFAULT false .R_NONE .RP_NONE)
          [⟨0, .WARN⟩] (.file "app.log")) 0).run hours plainLib
        [.call 1 (.Warn [⟨true, "warn"⟩]), .work ⟨2, true, false⟩, .finish 0]).failed
      = [⟨⟨1, "warn", .WARN⟩, false⟩] ∧
    ((Engine.start hours
        (Logger.fresh (Config.mk .LY_MSGONLY "{msg}" .INFO .TF_DEFAULT false .R_NONE .RP_NONE)
          [⟨0, .WARN⟩] (.file "app.log")) 0).run hours plainLib
        [.call 1 (.Warn [⟨true, "warn"⟩]), .work ⟨2, true, false⟩,
          .finish 0]).logger.invoked
      = [(⟨0, .WARN⟩, ⟨1, "warn", .WARN⟩)] := by
  refine ⟨by decide, ⟨by decide, by decide⟩, by decide, by decide, by decide⟩

/-- Claim C10, as amended: Wait returns when every queued message has been
processed and every started handle invocation has completed, and not before. After
any steps of the callers, the worker and the handles upon which Wait returns, the
messages processed are those queued at the start and those enqueued since, in
order, none lost; the line of each has been written to the sink, when the rotation
that was due and the write succeeded, or its failure has been recorded; and the completed handle invocations are, up to order, the earlier
ones and one for each such message and each handle whose threshold the level of the
message reaches. Wait does return: with one write attempt for each queued message
and one completion for each started invocation, whatever the attempts decide,
nothing is left. A handle that has not yet acted keeps Wait from returning until it
has. -/
theorem Wait_returns_when_all_processed :
    (∀ (cal : Calendar) (lib : Lib) (g : Engine) (steps : List Step),
      (g.run cal lib steps).WaitReturns →
      (g.outcomes cal lib steps).map Prod.fst
        = g.logger.queue ++ enqueued lib g.logger.config.Level (steps.map Step.action) ∧
      (g.run cal lib steps).stream
        = g.stream ++ landedLines lib g.logger.config (g.outcomes cal lib steps) ∧
      (g.run cal lib steps).failed = g.failed ++ lost (g.outcomes cal lib steps) ∧
      ((g.run cal lib steps).logger.invoked).Perm
        (g.logger.records
          ++ (enqueued lib g.logger.config.Level (steps.map Step.action)).flatMap
            (offers g.logger.handles)) ∧
      ∀ e ∈ g.logger.queue ++ enqueued lib g.logger.config.Level (steps.map Step.action),
        ((∃ before after : String,
            (g.run cal lib steps).stream = before ++ e.line lib g.logger.config ++ after) ∨
          e ∈ (g.run cal lib steps).failed) ∧
        ∀ h ∈ g.logger.handles, h.Level ≤ e.msg.Level →
          (h, e.msg) ∈ (g.run cal lib steps).logger.invoked) ∧
    (∀ (cal : Calendar) (lib : Lib) (g : Engine) (ats : List Attempt),
      ats.length = g.logger.queue.length →
      ∃ n : Nat,
        (g.run cal lib (ats.map Step.work ++ List.replicate n (Step.finish 0))).WaitReturns) ∧
    ((Engine.start hours
        (Logger.fresh (Config.mk .LY_MSGONLY "{msg}" .INFO .TF_DEFAULT false .R_NONE .RP_NONE)
          [⟨0, .WARN⟩] .stdout) 0).run hours plainLib
        [.call 1 (.Warn [⟨true, "warn"⟩]), .work ⟨2, true, true⟩]).logger.pending
      = [(⟨0, .WARN⟩, ⟨1, "warn", .WARN⟩)] ∧
    ¬ ((Engine.start hours
        (Logger.fresh (Config.mk .LY_MSGONLY "{msg}" .INFO .TF_DEFAULT false .R_NONE .RP_NONE)
          [⟨0, .WARN⟩] .stdout) 0).run hours plainLib
        [.call 1 (.Warn [⟨true, "warn"⟩]), .work ⟨2, true, true⟩]).WaitReturns ∧
    ((Engine.start hours
        (Logger.fresh (Config.mk .LY_MSGONLY "{msg}" .INFO .TF_DEFAULT false .R_NONE .RP_NONE)
          [⟨0, .WARN⟩] .stdout) 0).run hours plainLib
        [.call 1 (.Warn [⟨true, "warn"⟩]), .work ⟨2, true, true⟩, .finish 0]).WaitReturns ∧
    ((Engine.start hours
        (Logger.fresh (Config.mk .LY_MSGONLY "{msg}" .INFO .TF_DEFAULT false .R_NONE .RP_NONE)
          [⟨0, .WARN⟩] .stdout) 0).run hours plainLib
        [.call 1 (.Warn [⟨true, "warn"⟩]), .work ⟨2, true, true⟩, .finish 0]).logger.invoked
      = [(⟨0, .WARN⟩, ⟨1, "warn", .WARN⟩)] := by
  refine ⟨?_, ?_, by decide, ?_, ⟨by decide, by decide⟩, by decide⟩
  · intro cal lib g steps hw
    obtain ⟨h1, h2, h3⟩ := Engine.run_delivers cal lib steps g
    rw [hw.1, List.append_nil] at h1
    have hrec := Engine.run_invocations cal lib steps g
    have hinv : (g.run cal lib steps).logger.records = (g.run cal lib steps).logger.invoked := by
      simp [Logger.records, hw.1, hw.2]
    rw [hinv] at hrec
    refine ⟨h1, h2, h3, hrec, ?_⟩
    intro e he
    constructor
    · rcases delivered_of_mem lib g.logger.config e _ (by rw [h1]; exact he)
        with ⟨x, y, hxy⟩ | hlost
      · left
        refine ⟨g.stream ++ x, y, ?_⟩
        rw [h2, hxy]
        simp only [String.append_assoc]
      · right
        rw [h3]
        exact List.mem_append_right _ hlost
    · intro h hm hl
      rw [hrec.mem_iff, Logger.records]
      have hoff : (h, e.msg) ∈ offers g.logger.handles e := (mem_offers _ _ _ _).mpr ⟨hm, hl, rfl⟩
      rcases List.mem_append.mp he with h4 | h4
      · simp only [List.mem_append, List.mem_flatMap]
        exact Or.inl (Or.inr (Or.inr ⟨e, h4, hoff⟩))
      · simp only [List.mem_append, List.mem_flatMap]
        exact Or.inr ⟨e, h4, hoff⟩
  · intro cal lib g ats hlen
    have hq := Engine.works_empty_queue cal lib ats g hlen
    have hf := Engine.finishes_empty_pending cal lib
      (g.run cal lib (ats.map Step.work)).logger.pending.length
      (g.run cal lib (ats.map Step.work)) rfl
    refine ⟨(g.run cal lib (ats.map Step.work)).logger.pending.length, ?_, ?_⟩
    · rw [Engine.run_append, hf.2, hq]
    · rw [Engine.run_append, hf.1]
  · intro h
    have h2 := h.2
    revert h2
    decide

theorem Wait_returns_when_all_processed_witness :
    ((Engine.start hours
        (Logger.fresh (Config.mk .LY_MSGONLY "{msg}" .INFO .TF_DEFAULT false .R_NONE .RP_NONE)
          [⟨0, .WARN⟩] (.file "app.log")) 0).run hours plainLib
        [.call 1 (.Warn [⟨true, "warn"⟩]), .call 2 (.Info [⟨true, "info"⟩]),
          .work ⟨3, true, false⟩, .work ⟨3, true, true⟩, .finish 0]).WaitReturns ∧
    ((Engine.start hours
        (Logger.fresh (Config.mk .LY_MSGONLY "{msg}" .INFO .TF_DEFAULT false .R_NONE .RP_NONE)
          [⟨0, .WARN⟩] (.file "app.log")) 0).run hours plainLib
        [.call 1 (.Warn [⟨true, "warn"⟩]), .call 2 (.Info [⟨true, "info"⟩]),
          .work ⟨3, true, false⟩, .work ⟨3, true, true⟩, .finish 0]).failed
      = [] ++ lost ((Engine.start hours
        (Logger.fresh (Config.mk .LY_MSGONLY "{msg}" .INFO .TF_DEFAULT false .R_NONE .RP_NONE)
          [⟨0, .WARN⟩] (.file "app.log")) 0).outcomes hours plainLib
        [.call 1 (.Warn [⟨true, "warn"⟩]), .call 2 (.Info [⟨true, "info"⟩]),
          .work ⟨3, true, false⟩, .work ⟨3, true, true⟩, .finish 0]) ∧
    ((Engine.start hours
        (Logger.fresh (Config.mk .LY_MSGONLY "{msg}" .INFO .TF_DEFAULT false .R_NONE .RP_NONE)
          [⟨0, .WARN⟩] (.file "app.log")) 0).outcomes hours plainLib
        [.call 1 (.Warn [⟨true, "warn"⟩]), .call 2 (.Info [⟨true, "info"⟩]),
          .work ⟨3, true, false⟩, .work ⟨3, true, true⟩, .finish 0])
      = [(⟨⟨1, "warn", .WARN⟩, false⟩, false), (⟨⟨2, "info", .INFO⟩, false⟩, true)] :=
  ⟨⟨by decide, by decide⟩,
    (Wait_returns_when_all_processed.1 hours plainLib
      (Engine.start hours
        (Logger.fresh (Config.mk .LY_MSGONLY "{msg}" .INFO .TF_DEFAULT false .R_NONE .RP_NONE)
          [⟨0, .WARN⟩] (.file "app.log")) 0)
      [.call 1 (.Warn [⟨true, "warn"⟩]), .call 2 (.Info [⟨true, "info"⟩]),
        .work ⟨3, true, false⟩, .work ⟨3, true, true⟩, .finish 0]
      ⟨by decide, by decide⟩).2.2.1,
    by decide⟩

end log

namespace set

/-! ## Keys and legality -/

theorem goEq_eq {a b : any} (h : goEq a b = true) : a = b ∧ selfEq a = true := by
  simpa [goEq] using h

theorem goEq_self (a : any) : goEq a a = selfEq a := by
  simp [goEq]

theorem goEq_comm (a b : any) : goEq a b = goEq b a := by
  by_cases h : a = b
  · subst h; rfl
  · have h2 : ¬ b = a := fun h3 => h h3.symm
    simp [goEq, h, h2]

theorem checkLegal_iff (items : List any) :
    checkLegal items = true ↔ ∀ i ∈ items, IsLegal i = true := by
  induction items with
  | nil => simp [checkLegal]
  | cons i rest ih =>
    by_cases h : IsLegal i = true
    · simp [checkLegal, h, ih]
    · simp [checkLegal, h]

theorem mapAssign_any (m : List any) (k x : any) :
    (mapAssign m k).any (fun y => goEq y x) = (m.any (fun y => goEq y x) || goEq k x) := by
  unfold mapAssign
  split
  · rename_i h
    by_cases hk : goEq k x = true
    · have hkx := (goEq_eq hk).1
      subst hkx
      simp [h, hk]
    · simp [hk]
  · simp [List.any_append]

theorem mapAssign_mem (m : List any) (k y : any) (h : y ∈ mapAssign m k) : y ∈ m ∨ y = k := by
  unfold mapAssign at h
  split at h
  · exact Or.inl h
  · simpa using h

theorem mem_mapAssign_of_mem (m : List any) (k y : any) (h : y ∈ m) : y ∈ mapAssign m k := by
  unfold mapAssign
  split
  · exact h
  · exact List.mem_append_left _ h

theorem insertAll_panic (items : List any) : ∀ m : List any,
    (insertAll m items).2.1 = none ∨ (insertAll m items).2.1 = some .unhashable := by
  induction items with
  | nil => intro m; exact Or.inl rfl
  | cons i rest ih =>
    intro m
    by_cases h : hashable i = true
    · simpa [insertAll, h] using ih (mapAssign m i)
    · simp [insertAll, h]

theorem insertAll_none_iff (items : List any) : ∀ m : List any,
    (insertAll m items).2.1 = none ↔ ∀ i ∈ items, hashable i = true := by
  induction items with
  | nil => intro m; simp [insertAll]
  | cons i rest ih =>
    intro m
    by_cases h : hashable i = true
    · simpa [insertAll, h] using ih (mapAssign m i)
    · simp [insertAll, h]

theorem insertAll_any (items : List any) : ∀ m : List any, (∀ i ∈ items, hashable i = true) →
    ∀ x : any, (insertAll m items).1.any (fun y => goEq y x)
      = (m.any (fun y => goEq y x) || items.any (fun y => goEq y x)) := by
  induction items with
  | nil => intro m _ x; simp [insertAll]
  | cons i rest ih =>
    intro m hh x
    have hi := hh i (List.mem_cons_self _ _)
    have hr := ih (mapAssign m i) (fun j hj => hh j (List.mem_cons_of_mem _ hj)) x
    simp only [insertAll, hi, if_true, List.any_cons]
    rw [hr, mapAssign_any, Bool.or_assoc]

theorem insertAll_mem (items : List any) : ∀ (m : List any) (y : any),
    y ∈ (insertAll m items).1 → y ∈ m ∨ y ∈ items := by
  induction items with
  | nil => intro m y h; exact Or.inl h
  | cons i rest ih =>
    intro m y h
    by_cases hi : hashable i = true
    · simp only [insertAll, hi, if_true] at h
      rcases ih (mapAssign m i) y h with h2 | h2
      · rcases mapAssign_mem m i y h2 with h3 | h3
        · exact Or.inl h3
        · exact Or.inr (h3 ▸ List.mem_cons_self _ _)
      · exact Or.inr (List.mem_cons_of_mem _ h2)
    · simp only [insertAll, hi] at h
      exact Or.inl h

theorem insertAll_keeps (items : List any) : ∀ (m : List any) (y : any),
    y ∈ m → y ∈ (insertAll m items).1 := by
  induction items with
  | nil => intro m y h; exact h
  | cons i rest ih =>
    intro m y h
    by_cases hi : hashable i = true
    · simp only [insertAll, hi, if_true]
      exact ih _ y (mem_mapAssign_of_mem m i y h)
    · simp only [insertAll, hi]
      exact h

theorem mem_mapAssign_self (m : List any) (k : any) : k ∈ mapAssign m k := by
  unfold mapAssign
  split
  · rename_i h
    obtain ⟨y, hy, hye⟩ := List.any_eq_true.mp h
    rw [← (goEq_eq hye).1]
    exact hy
  · simp

theorem insertAll_adds (items : List any) : ∀ m : List any, (∀ i ∈ items, hashable i = true) →
    ∀ i ∈ items, i ∈ (insertAll m items).1 := by
  induction items with
  | nil => intro m _ i hi; simp at hi
  | cons j rest ih =>
    intro m hh i hi
    have hj := hh j (List.mem_cons_self _ _)
    simp only [insertAll, hj, if_true]
    rcases List.mem_cons.mp hi with h | h
    · rw [h]
      exact insertAll_keeps rest _ j (mem_mapAssign_self m j)
    · exact ih _ (fun k hk => hh k (List.mem_cons_of_mem _ hk)) i h

theorem insertAll_trace (items : List any) : ∀ m : List any,
    ∀ e ∈ (insertAll m items).2.2, e = Event.write := by
  induction items with
  | nil => intro m e h; simp [insertAll] at h
  | cons i rest ih =>
    intro m e h
    by_cases hi : hashable i = true
    · simp only [insertAll, hi, if_true, List.mem_cons] at h
      rcases h with h | h
      · exact h
      · exact ih _ e h
    · simpa [insertAll, hi] using h

theorem guardedFrom_writes (ws : List Event) (h : ∀ e ∈ ws, e = Event.write) (rest : List Event) :
    guardedFrom .writeLock (ws ++ rest) = guardedFrom .writeLock rest := by
  induction ws with
  | nil => rfl
  | cons e ws ih =>
    have he := h e (List.mem_cons_self _ _)
    subst he
    show ((Held.writeLock == Held.writeLock) && guardedFrom .writeLock (ws ++ rest)) = _
    rw [ih (fun e2 h2 => h e2 (List.mem_cons_of_mem _ h2))]
    rfl

/-! ## Well-formed maps -/

theorem New_WF : New.WF := by
  constructor
  · intro k hk; simp [New] at hk
  · simp [New]

theorem mapAssign_WF (m : List any) (k : any) (hk : hashable k = true)
    (h : Set.WF { m := m }) : Set.WF { m := mapAssign m k } := by
  unfold mapAssign
  split
  · exact h
  · rename_i hn
    constructor
    · intro y hy
      rcases List.mem_append.mp hy with h2 | h2
      · exact h.1 y h2
      · simp at h2; rw [h2]; exact hk
    · show (m ++ [k]).Pairwise _
      rw [List.pairwise_append]
      refine ⟨h.2, List.pairwise_singleton _ _, ?_⟩
      intro a ha b hb
      simp at hb
      subst hb
      simp only [List.any_eq_true, not_exists, not_and] at hn
      simpa using hn a ha

theorem insertAll_WF (items : List any) : ∀ m : List any,
    Set.WF { m := m } → Set.WF { m := (insertAll m items).1 } := by
  induction items with
  | nil => intro m h; exact h
  | cons i rest ih =>
    intro m h
    by_cases hi : hashable i = true
    · simp only [insertAll, hi, if_true]
      exact ih _ (mapAssign_WF m i hi h)
    · simp only [insertAll, hi]
      exact h

theorem Add_WF (s : Set) (items : List any) (h : s.WF) : (s.Add items).set.WF := by
  unfold Set.Add
  split
  · exact insertAll_WF items s.m h
  · exact h

theorem MustAdd_set (f : Fmt) (s : Set) (items : List any) :
    (s.MustAdd f items).set = (s.Add items).set ∧
    (s.MustAdd f items).trace = (s.Add items).trace := by
  unfold Set.MustAdd
  simp only
  split
  · exact ⟨rfl, rfl⟩
  · exact ⟨rfl, rfl⟩
  · split <;> exact ⟨rfl, rfl⟩

theorem Remove_WF (s : Set) (item : any) (h : s.WF) : (s.Remove item).set.WF := by
  unfold Set.Remove
  split
  · constructor
    · intro k hk
      exact h.1 k (List.mem_of_mem_filter hk)
    · exact h.2.sublist (List.filter_sublist _)
  · exact h

theorem Clear_WF (s : Set) : (s.Clear).set.WF := by
  constructor
  · intro k hk; simp [Set.Clear] at hk
  · simp [Set.Clear]

theorem apply_WF (f : Fmt) (s : Set) (op : Op) (h : s.WF) : (s.apply f op).WF := by
  cases op with
  | Add items => exact Add_WF s items h
  | MustAdd items =>
    show (s.MustAdd f items).set.WF
    rw [(MustAdd_set f s items).1]
    exact Add_WF s items h
  | Remove item => exact Remove_WF s item h
  | Clear => exact Clear_WF s

theorem run_WF (f : Fmt) (ops : List Op) : ∀ s : Set, s.WF → (s.run f ops).WF := by
  induction ops with
  | nil => intro s h; exact h
  | cons op ops ih =>
    intro s h
    exact ih _ (apply_WF f s op h)

/-! ## IsLegal and Add -/

/-- Claim C13: IsLegal is true exactly for a non-nil value whose dynamic type is
one of the seventeen predeclared types listed, or implements error; so byte and
rune values are legal, nil is not, and a value of any other type (a slice, a
map, a struct, a pointer, a function) that does not implement error is not. -/
theorem IsLegal_iff_listed_type_or_error :
    (∀ v : any, IsLegal v = true ↔ ∃ x : Value, v = some x ∧
      (x.type ∈ [GoType.bool, .string, .complex .complex64, .complex .complex128,
          .float .float32, .float .float64, .int .int, .int .int8, .int .int16, .int .int32,
          .int .int64, .int .uint, .int .uint8, .int .uint16, .int .uint32, .int .uint64,
          .int .uintptr]
        ∨ x.implementsError = true)) ∧
    IsLegal none = false ∧
    (∀ x : Value, x.type = GoType.byte ∨ x.type = GoType.rune → IsLegal (some x) = true) ∧
    (∀ o : Other, IsLegal (some (.other o)) = o.implementsError) ∧
    IsLegal intSlice = false ∧ IsLegal pointerError = true ∧ IsLegal sliceError = true := by
  have key : ∀ v : any, IsLegal v = true ↔ ∃ x : Value, v = some x ∧
      (x.type ∈ [GoType.bool, .string, .complex .complex64, .complex .complex128,
          .float .float32, .float .float64, .int .int, .int .int8, .int .int16, .int .int32,
          .int .int64, .int .uint, .int .uint8, .int .uint16, .int .uint32, .int .uint64,
          .int .uintptr]
        ∨ x.implementsError = true) := by
    intro v
    cases v with
    | none => simp [IsLegal]
    | some x =>
      cases x with
      | bool b => simp [IsLegal, legalCases, Case.matches, Value.type, Value.implementsError]
      | string s => simp [IsLegal, legalCases, Case.matches, Value.type, Value.implementsError]
      | int t n =>
        cases t <;> simp [IsLegal, legalCases, Case.matches, Value.type, Value.implementsError]
      | float t x =>
        cases t <;> simp [IsLegal, legalCases, Case.matches, Value.type, Value.implementsError]
      | complex t re im =>
        cases t <;> simp [IsLegal, legalCases, Case.matches, Value.type, Value.implementsError]
      | other o => simp [IsLegal, legalCases, Case.matches, Value.type, Value.implementsError]
  refine ⟨key, rfl, ?_, ?_, by decide, by decide, by decide⟩
  · intro x hx
    rw [key]
    refine ⟨x, rfl, Or.inl ?_⟩
    rcases hx with hx | hx <;> rw [hx] <;> decide
  · intro o
    rw [Bool.eq_iff_iff, key]
    simp [Value.type, Value.implementsError]

theorem IsLegal_iff_listed_type_or_error_witness :
    ((Value.int .uint8 65).type = GoType.byte ∨ (Value.int .uint8 65).type = GoType.rune) ∧
    IsLegal (some (.int .uint8 65)) = true :=
  ⟨by decide, IsLegal_iff_listed_type_or_error.2.2.1 _ (by decide)⟩

/-- Claim C12: when Add returns false the set is the set before the call, whatever
legal items stand before or after the item that is not legal. -/
theorem Add_false_leaves_set_unchanged (s : Set) (items : List any)
    (h : (s.Add items).result = .returned false) :
    (s.Add items).set = s ∧
    (∀ x : any, ((s.Add items).set.Has x).result = (s.Has x).result) ∧
    ((s.Add items).set.Len).result = (s.Len).result := by
  have hs : (s.Add items).set = s := by
    unfold Set.Add at h ⊢
    split
    · rename_i hc
      rw [if_pos hc] at h
      simp only at h
      split at h <;> simp at h
    · rfl
  rw [hs]
  exact ⟨rfl, fun _ => rfl, rfl⟩

theorem Add_false_leaves_set_unchanged_witness :
    ((New.Add [some (.int .int 1)]).set.Add
        [some (.string "a"), intSlice, some (.bool true)]).result = .returned false ∧
    ((New.Add [some (.int .int 1)]).set.Add
        [some (.string "a"), intSlice, some (.bool true)]).set
      = (New.Add [some (.int .int 1)]).set :=
  ⟨by decide, (Add_false_leaves_set_unchanged _ _ (by decide)).1⟩

theorem Add_result (s : Set) (items : List any) :
    (s.Add items).result = if checkLegal items = true
      then (if ∀ i ∈ items, hashable i = true then .returned true else .panicked .unhashable)
      else .returned false := by
  unfold Set.Add
  by_cases hc : checkLegal items = true
  · rw [if_pos hc, if_pos hc]
    simp only
    by_cases hh : ∀ i ∈ items, hashable i = true
    · rw [if_pos hh, (insertAll_none_iff items s.m).mpr hh]
    · rw [if_neg hh]
      rcases insertAll_panic items s.m with h | h
      · exact absurd ((insertAll_none_iff items s.m).mp h) hh
      · rw [h]
  · rw [if_neg hc, if_neg hc]

theorem Add_set_of_not_legal (s : Set) (items : List any) (h : ¬ checkLegal items = true) :
    (s.Add items).set = s := by
  unfold Set.Add
  rw [if_neg h]

theorem Add_trace_guarded (s : Set) (items : List any) : guarded (s.Add items).trace = true := by
  unfold Set.Add
  split
  · show guardedFrom .writeLock ((insertAll s.m items).2.2 ++ [Event.Unlock]) = true
    rw [guardedFrom_writes _ (insertAll_trace items s.m)]
    rfl
  · rfl

/-- Claim C11 at the failing input: an error value of a slice type is legal, so
every item of the one-item list is legal, yet Add does not return true: the
insertion panics. The defect is that IsLegal accepts a value that cannot be a map
key; on lists whose items can all be hashed Add returns true exactly when every
item is legal, it returns false exactly when some item is not legal, and it
returns true on the empty list. -/
theorem Add_legal_items_may_panic :
    (∀ i ∈ [sliceError], IsLegal i = true) ∧
    (New.Add [sliceError]).result = .panicked .unhashable ∧
    (New.Add [sliceError]).result ≠ .returned true ∧
    (∀ (s : Set) (items : List any), (∀ i ∈ items, hashable i = true) →
      ((s.Add items).result = .returned true ↔ ∀ i ∈ items, IsLegal i = true)) ∧
    (∀ (s : Set) (items : List any),
      (s.Add items).result = .returned false ↔ ∃ i ∈ items, IsLegal i = false) ∧
    (∀ s : Set, (s.Add []).result = .returned true) := by
  refine ⟨by decide, by decide, by decide, ?_, ?_, fun _ => rfl⟩
  · intro s items hh
    rw [Add_result, ← checkLegal_iff]
    by_cases hc : checkLegal items = true
    · rw [if_pos hc, if_pos hh]
      simp [hc]
    · simp [hc]
  · intro s items
    rw [Add_result]
    have hiff := checkLegal_iff items
    by_cases hc : checkLegal items = true
    · rw [if_pos hc]
      have hall := hiff.mp hc
      constructor
      · intro h
        split at h <;> simp at h
      · rintro ⟨i, hi, hl⟩
        rw [hall i hi] at hl
        cases hl
    · rw [if_neg hc]
      refine ⟨fun _ => ?_, fun _ => rfl⟩
      by_contra hne
      apply hc
      rw [hiff]
      intro i hi
      by_contra hl
      exact hne ⟨i, hi, by simpa using hl⟩

/-- Claim C14 at the failing input: every item of the list is legal (an error
value of a slice type), yet MustAdd panics, with the run-time panic of the
insertion. The defect is the one of claim C11. On lists whose items can all be
hashed MustAdd panics exactly when some item is not legal; whenever some item is
not legal it panics and leaves the set unchanged; when every item is legal and can
be hashed it returns and leaves the set that Add leaves. -/
theorem MustAdd_legal_items_may_panic :
    (∀ i ∈ [sliceError], IsLegal i = true) ∧
    (New.MustAdd plainFmt [sliceError]).result = .panicked .unhashable ∧
    (∀ (f : Fmt) (s : Set) (items : List any), (∀ i ∈ items, hashable i = true) →
      ((∃ p, (s.MustAdd f items).result = .panicked p) ↔ ∃ i ∈ items, IsLegal i = false)) ∧
    (∀ (f : Fmt) (s : Set) (items : List any), (∃ i ∈ items, IsLegal i = false) →
      (∃ p, (s.MustAdd f items).result = .panicked p) ∧ (s.MustAdd f items).set = s) ∧
    (∀ (f : Fmt) (s : Set) (items : List any),
      (∀ i ∈ items, hashable i = true) → (∀ i ∈ items, IsLegal i = true) →
      (s.MustAdd f items).result = .returned () ∧
      (s.MustAdd f items).set = (s.Add items).set) ∧
    (New.MustAdd { slice := fun _ => "[1 [2]]", value := fun _ => "" }
        [some (.int .int 1), intSlice]).result
      = .panicked (.raised "Value is not legal for adding to Set: 1 [2]\n") := by
  have hbad : ∀ (f : Fmt) (s : Set) (items : List any), (∃ i ∈ items, IsLegal i = false) →
      (∃ p, (s.MustAdd f items).result = .panicked p) ∧ (s.MustAdd f items).set = s := by
    intro f s items ⟨i, hi, hl⟩
    have hc : ¬ checkLegal items = true := by
      rw [checkLegal_iff]
      intro hall
      rw [hall i hi] at hl
      cases hl
    have hr : (s.Add items).result = .returned false := by
      rw [Add_result, if_neg hc]
    refine ⟨?_, ?_⟩
    · unfold Set.MustAdd
      simp only [hr]
      split <;> exact ⟨_, rfl⟩
    · rw [(MustAdd_set f s items).1]
      exact Add_set_of_not_legal s items hc
  have hgood : ∀ (f : Fmt) (s : Set) (items : List any),
      (∀ i ∈ items, hashable i = true) → (∀ i ∈ items, IsLegal i = true) →
      (s.MustAdd f items).result = .returned () ∧
      (s.MustAdd f items).set = (s.Add items).set := by
    intro f s items hh hl
    have hr : (s.Add items).result = .returned true := by
      rw [Add_result, if_pos ((checkLegal_iff items).mpr hl), if_pos hh]
    refine ⟨?_, (MustAdd_set f s items).1⟩
    unfold Set.MustAdd
    simp only [hr]
  refine ⟨by decide, by decide, ?_, hbad, hgood, by decide⟩
  intro f s items hh
  constructor
  · rintro ⟨p, hp⟩
    by_contra hne
    have hl : ∀ i ∈ items, IsLegal i = true := by
      intro i hi
      by_contra h
      exact hne ⟨i, hi, by simpa using h⟩
    rw [(hgood f s items hh hl).1] at hp
    cases hp
  · intro h
    exact (hbad f s items h).1

/-- Claim C20 at the failing input: IsLegal accepts an error value of a slice
type, which cannot be hashed, and Add on it does not return: the insertion loop
panics at run time, after inserting the items before it. Whenever every item is
legal and one cannot be hashed Add panics; Add returns true or false on every list
in which each legal item can be hashed. -/
theorem Add_panics_on_legal_unhashable_item :
    IsLegal sliceError = true ∧ hashable sliceError = false ∧
    (New.Add [sliceError]).result = .panicked .unhashable ∧
    (New.Add [some (.int .int 1), sliceError, some (.int .int 2)]).result
      = .panicked .unhashable ∧
    (New.Add [some (.int .int 1), sliceError, some (.int .int 2)]).set.m
      = [some (.int .int 1)] ∧
    (∀ (s : Set) (items : List any), (∀ i ∈ items, IsLegal i = true) →
      (∃ i ∈ items, hashable i = false) → (s.Add items).result = .panicked .unhashable) ∧
    (∀ (s : Set) (items : List any), (∀ i ∈ items, IsLegal i = true → hashable i = true) →
      ∃ b : Bool, (s.Add items).result = .returned b) := by
  refine ⟨by decide, by decide, by decide, by decide, by decide, ?_, ?_⟩
  · intro s items hl ⟨i, hi, hh⟩
    rw [Add_result, if_pos ((checkLegal_iff items).mpr hl), if_neg]
    intro hall
    rw [hall i hi] at hh
    cases hh
  · intro s items hlh
    rw [Add_result]
    by_cases hc : checkLegal items = true
    · rw [if_pos hc, if_pos]
      · exact ⟨true, rfl⟩
      · intro i hi
        exact hlh i hi ((checkLegal_iff items).mp hc i hi)
    · rw [if_neg hc]
      exact ⟨false, rfl⟩

/-- Claim C15 at the failing input: Remove unlocks before it deletes, so its map
write happens with no lock held; Len, IsEmpty, List and String read the map
without taking the lock. Add, MustAdd, Has and Clear keep the discipline. -/
theorem Remove_writes_map_after_unlock :
    (∀ (s : Set) (item : any),
      (s.Remove item).trace = [Event.Lock, Event.Unlock, Event.write] ∧
      guarded (s.Remove item).trace = false) ∧
    (∀ s : Set, guarded (s.Len).trace = false) ∧
    (∀ s : Set, guarded (s.IsEmpty).trace = false) ∧
    (∀ s : Set, guarded (s.List).trace = false) ∧
    (∀ (f : Fmt) (s : Set), guarded (s.String f).trace = false) ∧
    (∀ (s : Set) (items : List any), guarded (s.Add items).trace = true) ∧
    (∀ (f : Fmt) (s : Set) (items : List any), guarded (s.MustAdd f items).trace = true) ∧
    (∀ (s : Set) (item : any), guarded (s.Has item).trace = true) ∧
    (∀ s : Set, guarded (s.Clear).trace = true) := by
  refine ⟨?_, fun _ => rfl, fun _ => rfl, fun _ => rfl, fun _ _ => rfl, Add_trace_guarded, ?_,
    fun _ _ => rfl, fun _ => rfl⟩
  · intro s item
    unfold Set.Remove
    split <;> exact ⟨rfl, rfl⟩
  · intro f s items
    rw [(MustAdd_set f s items).2]
    exact Add_trace_guarded s items

/-! ## Membership -/

theorem Has_result (s : Set) (x : any) :
    (s.Has x).result = if hashable x = true then .returned (s.m.any (fun k => goEq k x))
      else .panicked .unhashable := rfl

theorem Has_true_iff (s : Set) (x : any) :
    (s.Has x).result = .returned true ↔
      hashable x = true ∧ s.m.any (fun k => goEq k x) = true := by
  rw [Has_result]
  by_cases h : hashable x = true
  · rw [if_pos h]
    simp [h]
  · rw [if_neg h]
    simp [h]

theorem any_goEq_iff_mem (m : List any) (x : any) (hx : selfEq x = true) :
    m.any (fun k => goEq k x) = true ↔ x ∈ m := by
  rw [List.any_eq_true]
  constructor
  · rintro ⟨k, hk, h⟩
    rw [← (goEq_eq h).1]
    exact hk
  · intro h
    exact ⟨x, h, by rw [goEq_self, hx]⟩

theorem Add_true_set (s : Set) (items : List any) (h : (s.Add items).result = .returned true) :
    (∀ i ∈ items, IsLegal i = true) ∧ (∀ i ∈ items, hashable i = true) ∧
    (s.Add items).set = { m := (insertAll s.m items).1 } := by
  rw [Add_result] at h
  by_cases hc : checkLegal items = true
  · rw [if_pos hc] at h
    by_cases hh : ∀ i ∈ items, hashable i = true
    · refine ⟨(checkLegal_iff items).mp hc, hh, ?_⟩
      unfold Set.Add
      rw [if_pos hc]
    · rw [if_neg hh] at h
      cases h
  · rw [if_neg hc] at h
    cases h

/-- Claim C16, as stated, fails: NaN of type float64 is legal and Add of it
returns true, yet Has of it is false afterwards. -/
theorem Has_denies_added_NaN :
    IsLegal nan64 = true ∧ (New.Add [nan64]).result = .returned true ∧
    ((New.Add [nan64]).set.Has nan64).result = .returned false := by
  decide

/-- Claim C16, amended: after Add of a list returns true (its items are then all
legal), Has is true of exactly the values that were members before and the items
of the list that equal themselves; an item that does not equal itself (NaN, or a
value holding NaN such as an error struct with a NaN field) is stored and Has of
it stays false; Has returns false for every other value that can be hashed;
adding a value that is already a member leaves the set, and so membership and Len,
unchanged. -/
theorem Has_after_Add :
    (∀ (s : Set) (items : List any), (s.Add items).result = .returned true →
      (∀ i ∈ items, IsLegal i = true) ∧
      (∀ x : any, ((s.Add items).set.Has x).result = .returned true ↔
        ((s.Has x).result = .returned true ∨ (x ∈ items ∧ selfEq x = true))) ∧
      (∀ x : any, hashable x = true → (s.Has x).result = .returned false →
        ¬ (x ∈ items ∧ selfEq x = true) →
        ((s.Add items).set.Has x).result = .returned false) ∧
      (∀ i ∈ items, selfEq i = false → (s.Has i).result = .returned false →
        ((s.Add items).set.Has i).result = .returned false ∧ i ∈ (s.Add items).set.m)) ∧
    (∀ (s : Set) (i : any), (s.Has i).result = .returned true →
      (s.Add [i]).set = s ∧ ((s.Add [i]).set.Len).result = (s.Len).result ∧
      ∀ x : any, ((s.Add [i]).set.Has x).result = (s.Has x).result) ∧
    (IsLegal nanError = true ∧ (New.Add [nanError]).result = .returned true ∧
      ((New.Add [nanError]).set.Has nanError).result = .returned false) := by
  refine ⟨?_, ?_, by decide⟩
  · intro s items h
    obtain ⟨hl, hh, hset⟩ := Add_true_set s items h
    have hany := insertAll_any items s.m hh
    have hiff : ∀ x : any, ((s.Add items).set.Has x).result = .returned true ↔
        ((s.Has x).result = .returned true ∨ (x ∈ items ∧ selfEq x = true)) := by
      intro x
      rw [Has_true_iff, Has_true_iff, hset]
      show hashable x = true ∧ (insertAll s.m items).1.any (fun k => goEq k x) = true ↔ _
      rw [hany, Bool.or_eq_true]
      constructor
      · rintro ⟨hx, h2 | h2⟩
        · exact Or.inl ⟨hx, h2⟩
        · obtain ⟨k, hk, hke⟩ := List.any_eq_true.mp h2
          have hkx := goEq_eq hke
          rw [hkx.1] at hk hkx
          exact Or.inr ⟨hk, hkx.2⟩
      · rintro (⟨hx, h2⟩ | ⟨hx, hself⟩)
        · exact ⟨hx, Or.inl h2⟩
        · exact ⟨hh x hx, Or.inr ((any_goEq_iff_mem items x hself).mpr hx)⟩
    have hfalse : ∀ x : any, hashable x = true → (s.Has x).result = .returned false →
        ¬ (x ∈ items ∧ selfEq x = true) →
        ((s.Add items).set.Has x).result = .returned false := by
      intro x hx hno hni
      have hnt : ¬ ((s.Add items).set.Has x).result = .returned true := by
        rw [hiff]
        rintro (h1 | h1)
        · rw [hno] at h1
          cases h1
        · exact hni h1
      rw [Has_result, if_pos hx] at hnt ⊢
      congr 1
      rw [Bool.eq_false_iff]
      intro h2
      exact hnt (by rw [h2])
    refine ⟨hl, hiff, hfalse, ?_⟩
    intro i hi hself hno
    refine ⟨hfalse i (hh i hi) hno (fun h2 => ?_), ?_⟩
    · rw [hself] at h2
      cases h2.2
    · rw [hset]
      show i ∈ (insertAll s.m items).1
      exact insertAll_adds items s.m hh i hi
  · intro s i hi
    have hm := ((Has_true_iff s i).mp hi)
    have hset : (s.Add [i]).set = s := by
      unfold Set.Add
      split
      · simp only [insertAll, hm.1, if_true, mapAssign, hm.2]
      · rfl
    rw [hset]
    exact ⟨rfl, rfl, fun _ => rfl⟩

theorem Has_after_Add_witness :
    (New.Add [some (.int .int 1), nan64, some (.string "a")]).result = .returned true ∧
    ((New.Add [some (.int .int 1), nan64, some (.string "a")]).set.Has
      (some (.string "a"))).result = .returned true ∧
    ((New.Add [some (.int .int 1), nan64, some (.string "a")]).set.Has nan64).result
      = .returned false :=
  ⟨by decide,
    ((Has_after_Add.1 New [some (.int .int 1), nan64, some (.string "a")] (by decide)).2.1
      (some (.string "a"))).mpr (Or.inr ⟨by decide, by decide⟩),
    ((Has_after_Add.1 New [some (.int .int 1), nan64, some (.string "a")] (by decide)).2.2.2
      nan64 (by decide) (by decide) (by decide)).1⟩

/-- Claim C17, as stated, fails: on the set holding 1, Remove of a slice, a value
that is not legal and cannot be hashed, panics instead of returning, and so does
Has of it. -/
theorem Remove_panics_on_unhashable :
    IsLegal intSlice = false ∧
    ((New.Add [some (.int .int 1)]).set.Has intSlice).result = .panicked .unhashable ∧
    ((New.Add [some (.int .int 1)]).set.Remove intSlice).result = .panicked .unhashable ∧
    ((New.Add [some (.int .int 1)]).set.Remove intSlice).result ≠ .returned () := by
  decide

theorem filter_length_of_member (x : any) : ∀ m : List any,
    m.Pairwise (fun a b => goEq a b = false) → m.any (fun k => goEq k x) = true →
    (m.filter (fun k => !goEq k x)).length + 1 = m.length := by
  intro m
  induction m with
  | nil => intro _ h; simp at h
  | cons k rest ih =>
    intro hp ha
    rw [List.pairwise_cons] at hp
    by_cases hk : goEq k x = true
    · have hkx := goEq_eq hk
      have hrest : rest.filter (fun y => !goEq y x) = rest := by
        rw [List.filter_eq_self]
        intro b hb
        have h1 := hp.1 b hb
        by_cases hbx : goEq b x = true
        · have h2 := (goEq_eq hbx).1
          rw [h2, ← hkx.1, goEq_self, hkx.2] at h1
          cases h1
        · simpa using hbx
      simp [List.filter_cons, hk, hrest]
    · have ha2 : rest.any (fun y => goEq y x) = true := by
        simpa [List.any_cons, hk] using ha
      have := ih hp.2 ha2
      simp [List.filter_cons, hk] at this ⊢
      exact this

/-- Claim C17, amended: for every value that can be hashed, Remove returns, Has
of the value is false afterwards and Has of every other value is unchanged; Remove
of a value that is not a member leaves the set unchanged; in a well-formed set
Len decreases by one when the value was a member and is unchanged when it was
not. Remove of a value that cannot be hashed panics and leaves the set
unchanged. -/
theorem Remove_of_hashable :
    (∀ (s : Set) (x : any), hashable x = true →
      (s.Remove x).result = .returned () ∧
      ((s.Remove x).set.Has x).result = .returned false ∧
      (∀ y : any, y ≠ x → ((s.Remove x).set.Has y).result = (s.Has y).result) ∧
      ((s.Has x).result = .returned false → (s.Remove x).set = s) ∧
      (s.WF → (s.Has x).result = .returned true →
        ((s.Remove x).set.Len).result = .returned (s.m.length - 1) ∧ 0 < s.m.length) ∧
      ((s.Has x).result = .returned false →
        ((s.Remove x).set.Len).result = (s.Len).result)) ∧
    (∀ (s : Set) (x : any), hashable x = false →
      (s.Remove x).result = .panicked .unhashable ∧ (s.Remove x).set = s) := by
  constructor
  · intro s x hx
    have hset : (s.Remove x).set = { m := s.m.filter (fun k => !goEq k x) } := by
      unfold Set.Remove
      rw [if_pos hx]
    have hres : (s.Remove x).result = .returned () := by
      unfold Set.Remove
      rw [if_pos hx]
    have hnot : (s.Has x).result = .returned false → (s.Remove x).set = s := by
      intro h
      rw [Has_result, if_pos hx] at h
      have h1 : s.m.any (fun k => goEq k x) = false := by injection h
      rw [hset]
      have h2 : s.m.filter (fun k => !goEq k x) = s.m := by
        rw [List.filter_eq_self]
        intro b hb
        by_cases hbx : goEq b x = true
        · have h3 : s.m.any (fun k => goEq k x) = true := List.any_eq_true.mpr ⟨b, hb, hbx⟩
          rw [h1] at h3
          cases h3
        · simpa using hbx
      rw [h2]
    refine ⟨hres, ?_, ?_, hnot, ?_, ?_⟩
    · rw [Has_result, if_pos hx, hset]
      congr 1
      rw [Bool.eq_false_iff]
      intro h
      obtain ⟨k, hk, hke⟩ := List.any_eq_true.mp h
      have h2 := (List.mem_filter.mp hk).2
      rw [hke] at h2
      cases h2
    · intro y hy
      rw [Has_result, Has_result, hset]
      by_cases hh : hashable y = true
      · rw [if_pos hh, if_pos hh]
        congr 1
        rw [Bool.eq_iff_iff, List.any_eq_true, List.any_eq_true]
        constructor
        · rintro ⟨k, hk, hke⟩
          exact ⟨k, (List.mem_filter.mp hk).1, hke⟩
        · rintro ⟨k, hk, hke⟩
          refine ⟨k, List.mem_filter.mpr ⟨hk, ?_⟩, hke⟩
          by_cases hkx : goEq k x = true
          · exact absurd ((goEq_eq hke).1.symm.trans (goEq_eq hkx).1) hy
          · simpa using hkx
      · rw [if_neg hh, if_neg hh]
    · intro hwf hmem
      have hany := ((Has_true_iff s x).mp hmem).2
      have hlen := filter_length_of_member x s.m hwf.2 hany
      rw [hset]
      refine ⟨?_, by omega⟩
      show Result.returned (s.m.filter (fun k => !goEq k x)).length = _
      congr 1
      omega
    · intro h
      rw [hnot h]
  · intro s x hx
    unfold Set.Remove
    rw [if_neg (by simp [hx])]
    exact ⟨rfl, rfl⟩

theorem Remove_of_hashable_witness :
    hashable (some (.int .int 1)) = true ∧
    ((New.Add [some (.int .int 1), some (.int .int 2)]).set.Remove
      (some (.int .int 1))).result = .returned () ∧
    (((New.Add [some (.int .int 1), some (.int .int 2)]).set.Remove
      (some (.int .int 1))).set.Has (some (.int .int 1))).result = .returned false :=
  ⟨by decide, (Remove_of_hashable.1 _ _ (by decide)).1, (Remove_of_hashable.1 _ _ (by decide)).2.1⟩

/-- Claim C18, as stated, fails: after Add of NaN, List holds NaN, which Has
denies; after Add of NaN twice, List holds it twice. -/
theorem List_holds_NaN_that_Has_denies :
    (New.Add [nan64]).result = .returned true ∧
    ((New.Add [nan64]).set.List).result = .returned [nan64] ∧
    nan64 ∈ [nan64] ∧
    ((New.Add [nan64]).set.Has nan64).result = .returned false ∧
    ((New.Add [nan64, nan64]).set.List).result = .returned [nan64, nan64] ∧
    ¬ [nan64, nan64].Nodup ∧
    ((New.Add [nanError, nanError]).set.List).result = .returned [nanError, nanError] ∧
    ((New.Add [nanError, nanError]).set.Len).result = .returned 2 := by
  decide

/-- Claim C18, amended: for every well-formed set, and so for every set reached
from New, List returns the keys: as many as Len, no two of them equal as keys, a
value that equals itself occurring among them if and only if Has is true of it,
every value of which Has is true occurring among them, and no key twice when every
key equals itself (a key that does not, NaN or a value holding NaN such as an
error struct with a NaN field, can occur more than once); IsEmpty is true if and
only if Len is 0, which holds for New and after Clear. -/
theorem List_holds_each_member_once :
    (∀ s : Set, s.WF →
      ∃ l : List any, (s.List).result = .returned l ∧
        (s.Len).result = .returned l.length ∧
        l.Pairwise (fun a b => goEq a b = false) ∧
        (∀ x : any, selfEq x = true → (x ∈ l ↔ (s.Has x).result = .returned true)) ∧
        (∀ x : any, (s.Has x).result = .returned true → x ∈ l) ∧
        ((∀ k ∈ l, selfEq k = true) → l.Nodup)) ∧
    (∀ s : Set, ∃ n : Nat, (s.Len).result = .returned n ∧
      (s.IsEmpty).result = .returned (decide (n = 0))) ∧
    (New.IsEmpty).result = .returned true ∧ (New.Len).result = .returned 0 ∧
    (∀ s : Set, ((s.Clear).set.IsEmpty).result = .returned true ∧
      ((s.Clear).set.Len).result = .returned 0) ∧
    (∀ (f : Fmt) (ops : List Op), (New.run f ops).WF) := by
  refine ⟨?_, ?_, rfl, rfl, fun _ => ⟨rfl, rfl⟩, fun f ops => run_WF f ops New New_WF⟩
  · intro s hwf
    refine ⟨s.m, rfl, rfl, hwf.2, ?_, ?_, ?_⟩
    · intro x hx
      rw [Has_true_iff, any_goEq_iff_mem s.m x hx]
      constructor
      · intro h
        exact ⟨hwf.1 x h, h⟩
      · intro h
        exact h.2
    · intro x hx
      obtain ⟨k, hk, hke⟩ := List.any_eq_true.mp ((Has_true_iff s x).mp hx).2
      rw [← (goEq_eq hke).1]
      exact hk
    · intro hself
      have hp := hwf.2
      refine List.Pairwise.imp_of_mem ?_ hp
      intro a b ha _ hab heq
      subst heq
      rw [goEq_self, hself a ha] at hab
      cases hab
  · intro s
    refine ⟨s.m.length, rfl, ?_⟩
    show Result.returned (if s.m.length == 0 then true else false) = _
    congr 1
    by_cases h : s.m.length = 0 <;> simp [h]

theorem List_holds_each_member_once_witness :
    (New.Add [some (.int .int 1), some (.string "a"), some (.int .int 1)]).set.WF ∧
    ∃ l : List any,
      ((New.Add [some (.int .int 1), some (.string "a"), some (.int .int 1)]).set.List).result
        = .returned l ∧
      ((New.Add [some (.int .int 1), some (.string "a"), some (.int .int 1)]).set.Len).result
        = .returned l.length ∧
      (some (.string "a") ∈ l ↔
        ((New.Add [some (.int .int 1), some (.string "a"), some (.int .int 1)]).set.Has
          (some (.string "a"))).result = .returned true) :=
  ⟨Add_WF _ _ New_WF,
    (List_holds_each_member_once.1 _ (Add_WF _ _ New_WF)).imp
      (fun _ h => ⟨h.1, h.2.1, h.2.2.2.1 (some (.string "a")) (by decide)⟩)⟩

/-! ## Reachable sets -/

theorem apply_legal (f : Fmt) (s : Set) (op : Op) (h : ∀ k ∈ s.m, IsLegal k = true) :
    ∀ k ∈ (s.apply f op).m, IsLegal k = true := by
  have hadd : ∀ items : List any, ∀ k ∈ (s.Add items).set.m, IsLegal k = true := by
    intro items k hk
    unfold Set.Add at hk
    split at hk
    · rename_i hc
      rcases insertAll_mem items s.m k hk with h2 | h2
      · exact h k h2
      · exact (checkLegal_iff items).mp hc k h2
    · exact h k hk
  cases op with
  | Add items => exact hadd items
  | MustAdd items =>
    show ∀ k ∈ (s.MustAdd f items).set.m, IsLegal k = true
    rw [(MustAdd_set f s items).1]
    exact hadd items
  | Remove item =>
    intro k hk
    have hk2 : k ∈ (s.Remove item).set.m := hk
    unfold Set.Remove at hk2
    split at hk2
    · exact h k (List.mem_of_mem_filter hk2)
    · exact h k hk2
  | Clear =>
    intro k hk
    have hk2 : k ∈ (s.Clear).set.m := hk
    simp [Set.Clear] at hk2

theorem run_legal (f : Fmt) (ops : List Op) : ∀ s : Set, (∀ k ∈ s.m, IsLegal k = true) →
    ∀ k ∈ (s.run f ops).m, IsLegal k = true := by
  induction ops with
  | nil => intro s h; exact h
  | cons op ops ih =>
    intro s h
    exact ih _ (apply_legal f s op h)

/-- Claim C19: in every set reached from New by Add, MustAdd, Remove and Clear,
the calls that return false or panic included (a panicking Add keeps the items it
inserted before the panic), Has is true only of legal values. -/
theorem reachable_Has_implies_IsLegal (f : Fmt) (ops : List Op) (x : any)
    (h : ((New.run f ops).Has x).result = .returned true) : IsLegal x = true := by
  obtain ⟨k, hk, hke⟩ := List.any_eq_true.mp ((Has_true_iff _ x).mp h).2
  have hl := run_legal f ops New (by intro k hk; simp [New] at hk) k hk
  rw [← (goEq_eq hke).1]
  exact hl

theorem reachable_Has_implies_IsLegal_witness :
    ((New.run plainFmt [.Add [some (.int .int 1), sliceError], .MustAdd [intSlice],
        .Add [some (.string "a"), intSlice], .Remove (some (.int .int 2)),
        .MustAdd [some (.bool true)]]).Has (some (.int .int 1))).result = .returned true ∧
    IsLegal (some (.int .int 1)) = true :=
  ⟨by decide,
    reachable_Has_implies_IsLegal plainFmt
      [.Add [some (.int .int 1), sliceError], .MustAdd [intSlice],
        .Add [some (.string "a"), intSlice], .Remove (some (.int .int 2)),
        .MustAdd [some (.bool true)]]
      (some (.int .int 1)) (by decide)⟩

end set
